import Mathlib

/-!
Verification development for the SPECTER mail-assistant repository
(`ai_engine.py`, `gui_app.py`, `server.py`).

Python strings are modelled as `List Char` (one entry per code point).
Machine floats never matter to the verified claims: difflib's similarity
ratio is modelled exactly in `ℚ`.  Python functions that can raise are
modelled with `Option`/`Except`; external effects (Ollama, the MCP tool
channel, Google APIs) are modelled as explicit behaviour parameters.
-/

/-- Convert a Lean string literal to the `List Char` representation used
throughout this development. -/
def chars (s : String) : List Char := s.data

/-- Whitespace for Python `str.strip` (ASCII fragment; the repository only
strips ASCII whitespace in practice). -/
def pyIsSpace (c : Char) : Bool :=
  c == ' ' || c == '\t' || c == '\n' || c == '\r' || c == '\x0b' || c == '\x0c'

/-- Python `str.strip()`: drop leading and trailing whitespace. -/
def stripL (s : List Char) : List Char :=
  ((s.dropWhile pyIsSpace).reverse.dropWhile pyIsSpace).reverse

/-- Python `str.lower()` (ASCII model). -/
def lowerL (s : List Char) : List Char := s.map Char.toLower

/-- Does the list start with the given pattern? -/
def startsWithL : List Char → List Char → Bool
  | _, [] => true
  | [], _ :: _ => false
  | a :: as, b :: bs => a == b && startsWithL as bs

/-- Leftmost occurrence of `pat` in a list: returns the part strictly before
the occurrence and the part strictly after it. -/
def findOcc (pat : List Char) : List Char → Option (List Char × List Char)
  | [] => if startsWithL [] pat then some ([], []) else none
  | c :: t =>
    if startsWithL (c :: t) pat then some ([], (c :: t).drop pat.length)
    else (findOcc pat t).map (fun p => (c :: p.1, p.2))

/-- Python `pat in s` (substring containment test). -/
def containsL (s pat : List Char) : Bool := (findOcc pat s).isSome

/-- Fuel-driven worker for `splitOnL`. -/
def splitGo (pat : List Char) : Nat → List Char → List (List Char)
  | 0, s => [s]
  | fuel + 1, s =>
    match findOcc pat s with
    | none => [s]
    | some (pre, post) => pre :: splitGo pat fuel post

/-- Python `s.split(pat)` for a non-empty separator: split on every
non-overlapping leftmost occurrence. -/
def splitOnL (s pat : List Char) : List (List Char) := splitGo pat (s.length + 1) s

/-- First-element test used instead of literal-pattern matching. -/
def headIs : List Char → Char → Bool
  | [], _ => false
  | c :: _, d => c == d

/-! ### JSON values

`json.loads` numbers are modelled as integers (float literals are outside
the model), and strings are sequences of Unicode scalars.  Objects and
arrays are mutually inductive with the value type so that all functions
over them are structurally recursive (and hence kernel-reducible). -/

mutual
inductive JValue where
  | null
  | bool (b : Bool)
  | int (n : Int)
  | str (s : List Char)
  | arr (es : JArr)
  | obj (fs : JObj)
inductive JArr where
  | nil
  | cons (v : JValue) (tl : JArr)
inductive JObj where
  | nil
  | cons (k : List Char) (v : JValue) (tl : JObj)
end

/-- Build a `JObj` from an association list. -/
def objOf : List (List Char × JValue) → JObj
  | [] => .nil
  | (k, v) :: t => .cons k v (objOf t)

/-- Does the object bind the given key? -/
def hasKey : JObj → List Char → Bool
  | .nil, _ => false
  | .cons k _ tl, q => k == q || hasKey tl q

/-- Python `dict.get`: value of the first binding of `q`. -/
def getJ : JObj → List Char → Option JValue
  | .nil, _ => none
  | .cons k v tl, q => if k == q then some v else getJ tl q

/-- Python `d[k] = v`: replace the first binding in place, else append. -/
def setKey : JObj → List Char → JValue → JObj
  | .nil, k, v => .cons k v .nil
  | .cons k0 v0 tl, k, v =>
    if k0 == k then .cons k0 v tl else .cons k0 v0 (setKey tl k v)

/-- Python `d.update(u)` / `{**d, **u}` merge: later keys override. -/
def pyUpdate (d : JObj) : JObj → JObj
  | .nil => d
  | .cons k v tl => pyUpdate (setKey d k v) tl

/-- Python truthiness of a JSON value (`if result:`). -/
def pyTruthy : JValue → Bool
  | .null => false
  | .bool b => b
  | .int n => n != 0
  | .str s => !s.isEmpty
  | .arr .nil => false
  | .arr (.cons _ _) => true
  | .obj .nil => false
  | .obj (.cons _ _ _) => true

/-- Truthiness of `d.get(k)` (a missing key is `None`, hence falsy). -/
def pyTruthyOpt : Option JValue → Bool
  | none => false
  | some v => pyTruthy v

/-! ### Serialisation (`json.dumps` with default arguments) -/

/-- Hex digit characters as emitted by `json.dumps` (lowercase). -/
def hexDigitChar (n : Nat) : Char :=
  match n with
  | 0 => '0' | 1 => '1' | 2 => '2' | 3 => '3' | 4 => '4'
  | 5 => '5' | 6 => '6' | 7 => '7' | 8 => '8' | 9 => '9'
  | 10 => 'a' | 11 => 'b' | 12 => 'c' | 13 => 'd' | 14 => 'e' | _ => 'f'

/-- Fuel-driven decimal digit printer (most significant digit first). -/
def natDigitsGo : Nat → Nat → List Char
  | 0, _ => []
  | fuel + 1, n =>
    if n < 10 then [hexDigitChar n]
    else natDigitsGo fuel (n / 10) ++ [hexDigitChar (n % 10)]

/-- Decimal digits of a natural number, as printed by Python `str`. -/
def natDigits (n : Nat) : List Char := natDigitsGo (n + 1) n

/-- Python `str` of an `int`. -/
def intChars : Int → List Char
  | .ofNat n => natDigits n
  | .negSucc n => '-' :: natDigits (n + 1)

/-- One character as escaped by `json.dumps` (`ensure_ascii=True`). -/
def escChar (c : Char) : List Char :=
  if c == '"' then ['\\', '"']
  else if c == '\\' then ['\\', '\\']
  else if c == '\n' then ['\\', 'n']
  else if c == '\t' then ['\\', 't']
  else if c == '\r' then ['\\', 'r']
  else if c == '\x08' then ['\\', 'b']
  else if c == '\x0c' then ['\\', 'f']
  else if 0x20 ≤ c.toNat && c.toNat ≤ 0x7e then [c]
  else ['\\', 'u', hexDigitChar (c.toNat / 4096 % 16), hexDigitChar (c.toNat / 256 % 16),
        hexDigitChar (c.toNat / 16 % 16), hexDigitChar (c.toNat % 16)]

/-- Escape a whole string body. -/
def escStr : List Char → List Char
  | [] => []
  | c :: t => escChar c ++ escStr t

mutual
/-- `json.dumps` with default separators `", "` and `": "`. -/
def printV : JValue → List Char
  | .null => chars "null"
  | .bool true => chars "true"
  | .bool false => chars "false"
  | .int n => intChars n
  | .str s => '"' :: escStr s ++ ['"']
  | .arr .nil => ['[', ']']
  | .arr (.cons v tl) => '[' :: (printV v ++ printArrTail tl) ++ [']']
  | .obj .nil => ['\x7b', '\x7d']
  | .obj (.cons k v tl) =>
    '\x7b' :: (('"' :: escStr k ++ '"' :: ':' :: ' ' :: printV v) ++ printObjTail tl) ++ ['\x7d']
/-- Remaining array elements, each preceded by `", "`. -/
def printArrTail : JArr → List Char
  | .nil => []
  | .cons v tl => ',' :: ' ' :: printV v ++ printArrTail tl
/-- Remaining object fields, each preceded by `", "`. -/
def printObjTail : JObj → List Char
  | .nil => []
  | .cons k v tl => ',' :: ' ' :: ('"' :: escStr k ++ '"' :: ':' :: ' ' :: printV v) ++ printObjTail tl
end

/-- One `"key": value` pair (abbreviation for statements about `printV`). -/
def printKV (k : List Char) (v : JValue) : List Char :=
  '"' :: escStr k ++ '"' :: ':' :: ' ' :: printV v

/-- A string the model can serialise and re-parse: all scalars in the
basic multilingual plane (`json.dumps` would emit surrogate pairs above
it, which the model does not cover). -/
def wfStr (s : List Char) : Bool := s.all (fun c => c.toNat < 0x10000)

mutual
/-- Well-formed JSON value: BMP strings, and object keys distinct
(Python dicts cannot hold duplicate keys). -/
def wfV : JValue → Bool
  | .null => true
  | .bool _ => true
  | .int _ => true
  | .str s => wfStr s
  | .arr es => wfA es
  | .obj fs => wfO fs
/-- Well-formedness of array elements. -/
def wfA : JArr → Bool
  | .nil => true
  | .cons v tl => wfV v && wfA tl
/-- Well-formedness of object fields. -/
def wfO : JObj → Bool
  | .nil => true
  | .cons k v tl => wfStr k && wfV v && wfO tl && !(hasKey tl k)
end

/-! ### Parsing (`json.loads`) -/

/-- The four whitespace characters `json.loads` skips between tokens. -/
def jsonWs (c : Char) : Bool := c == ' ' || c == '\t' || c == '\n' || c == '\r'

/-- Skip JSON whitespace. -/
def skipWs (s : List Char) : List Char := s.dropWhile jsonWs

/-- Value of one hex digit (both letter cases accepted, as in
`json.loads`; code points written in decimal: 48-57 are the digits,
97-102 lowercase a-f, 65-70 uppercase A-F). -/
def hexVal (c : Char) : Option Nat :=
  let n := c.toNat
  if 48 ≤ n ∧ n ≤ 57 then some (n - 48)
  else if 97 ≤ n ∧ n ≤ 102 then some (n - 87)
  else if 65 ≤ n ∧ n ≤ 70 then some (n - 55)
  else none

mutual
/-- Body of a JSON string, after the opening quote: strict mode (raw
control characters rejected), standard escapes, `\uXXXX` for non-surrogate
scalars (surrogate escapes are outside the model). -/
def parseStrBody : List Char → Option (List Char × List Char)
  | [] => none
  | c :: r =>
    if c == '"' then some ([], r)
    else if c == '\\' then parseEsc r
    else if c.toNat < 0x20 then none
    else (parseStrBody r).map (fun p => (c :: p.1, p.2))
/-- One escape sequence after a backslash. -/
def parseEsc : List Char → Option (List Char × List Char)
  | [] => none
  | e :: r =>
    if e == '"' then (parseStrBody r).map (fun p => ('"' :: p.1, p.2))
    else if e == '\\' then (parseStrBody r).map (fun p => ('\\' :: p.1, p.2))
    else if e == '/' then (parseStrBody r).map (fun p => ('/' :: p.1, p.2))
    else if e == 'b' then (parseStrBody r).map (fun p => ('\x08' :: p.1, p.2))
    else if e == 'f' then (parseStrBody r).map (fun p => ('\x0c' :: p.1, p.2))
    else if e == 'n' then (parseStrBody r).map (fun p => ('\n' :: p.1, p.2))
    else if e == 'r' then (parseStrBody r).map (fun p => ('\r' :: p.1, p.2))
    else if e == 't' then (parseStrBody r).map (fun p => ('\t' :: p.1, p.2))
    else if e == 'u' then
      match r with
      | h1 :: h2 :: h3 :: h4 :: r2 =>
        match hexVal h1, hexVal h2, hexVal h3, hexVal h4 with
        | some a, some b, some c, some d =>
          let code := 4096 * a + 256 * b + 16 * c + d
          if code < 0xd800 || 0xe000 ≤ code then
            (parseStrBody r2).map (fun p => (Char.ofNat code :: p.1, p.2))
          else none
        | _, _, _, _ => none
      | _ => none
    else none
end

/-- Value of a run of decimal digits. -/
def digitVal (c : Char) : Nat := c.toNat - '0'.toNat

/-- Accumulated value of a digit list. -/
def digitsVal (ds : List Char) : Nat := ds.foldl (fun a c => 10 * a + digitVal c) 0

/-- Head of the list is not a decimal digit (or the list is empty). -/
def headNotDigit : List Char → Bool
  | [] => true
  | c :: _ => !c.isDigit

/-- A JSON natural-number token: a digit run with no redundant leading
zero. -/
def parseNatTok (s : List Char) : Option (Nat × List Char) :=
  match s.takeWhile Char.isDigit with
  | [] => none
  | d :: ds =>
    if d == '0' && !ds.isEmpty then none
    else some (digitsVal (d :: ds), s.drop (d :: ds).length)

/-- A JSON integer token (float syntax is outside the model). -/
def parseIntTok : List Char → Option (Int × List Char)
  | [] => none
  | c :: r =>
    if c == '-' then (parseNatTok r).map (fun p => (-(p.1 : Int), p.2))
    else (parseNatTok (c :: r)).map (fun p => ((p.1 : Int), p.2))

mutual
/-- Recursive-descent JSON value parser with fuel; returns the parsed
value and the unconsumed rest. -/
def parseVal : Nat → List Char → Option (JValue × List Char)
  | 0, _ => none
  | fuel + 1, s =>
    match skipWs s with
    | [] => none
    | c :: r =>
      if c == 'n' then
        if startsWithL r (chars "ull") then some (.null, r.drop 3) else none
      else if c == 't' then
        if startsWithL r (chars "rue") then some (.bool true, r.drop 3) else none
      else if c == 'f' then
        if startsWithL r (chars "alse") then some (.bool false, r.drop 4) else none
      else if c == '"' then (parseStrBody r).map (fun p => (.str p.1, p.2))
      else if c == '[' then
        let r2 := skipWs r
        if headIs r2 ']' then some (.arr .nil, r2.tail)
        else (parseElems fuel r2).map (fun p => (.arr p.1, p.2))
      else if c == '\x7b' then
        let r2 := skipWs r
        if headIs r2 '\x7d' then some (.obj .nil, r2.tail)
        else (parseFields fuel r2).map (fun p => (.obj p.1, p.2))
      else (parseIntTok (c :: r)).map (fun p => (.int p.1, p.2))
/-- One or more comma-separated array elements followed by `]`. -/
def parseElems : Nat → List Char → Option (JArr × List Char)
  | 0, _ => none
  | fuel + 1, s =>
    match parseVal fuel s with
    | none => none
    | some (v, r) =>
      let r2 := skipWs r
      if headIs r2 ',' then (parseElems fuel r2.tail).map (fun p => (.cons v p.1, p.2))
      else if headIs r2 ']' then some (.cons v .nil, r2.tail)
      else none
/-- One or more comma-separated `"key": value` fields followed by the
closing brace. -/
def parseFields : Nat → List Char → Option (JObj × List Char)
  | 0, _ => none
  | fuel + 1, s =>
    let s1 := skipWs s
    if headIs s1 '"' then
      match parseStrBody s1.tail with
      | none => none
      | some (k, r) =>
        let r2 := skipWs r
        if headIs r2 ':' then
          match parseVal fuel r2.tail with
          | none => none
          | some (v, r3) =>
            let r4 := skipWs r3
            if headIs r4 ',' then (parseFields fuel r4.tail).map (fun p => (.cons k v p.1, p.2))
            else if headIs r4 '\x7d' then some (.cons k v .nil, r4.tail)
            else none
        else none
    else none
end

/-- `json.loads`: parse a complete document, allowing surrounding
whitespace only ("Extra data" otherwise fails the parse). -/
def jsonLoads (s : List Char) : Option JValue :=
  match parseVal (s.length + 1) s with
  | some (v, r) => if (skipWs r).isEmpty then some v else none
  | none => none

/-! ### The response sanitizer (`BaseAIEngine._clean_and_parse_json`) -/

/-- The tagged fence marker searched for first. -/
def tagJson : List Char := chars "```json"

/-- The bare fence marker. -/
def tagFence : List Char := chars "```"

/-- The fence-recovery text selection of `_clean_and_parse_json`: which
substring the second parse attempt runs on (before stripping).  `none`
models an `IndexError` escaping to the inner `except`. -/
def fenceExtract (text : List Char) : Option (List Char) :=
  if containsL text tagJson then
    match (splitOnL text tagJson).get? 1 with
    | none => none
    | some part => (splitOnL part tagFence).get? 0
  else if containsL text tagFence then
    match (splitOnL text tagFence).get? 1 with
    | none => none
    | some part => (splitOnL part tagFence).get? 0
  else some text

/-- `BaseAIEngine._clean_and_parse_json`: direct parse, then fence
recovery with stripping; any failure yields `None` (never raises). -/
def cleanAndParse (text : List Char) : Option JValue :=
  match jsonLoads text with
  | some v => some v
  | none =>
    match fenceExtract text with
    | none => none
    | some t2 => jsonLoads (stripL t2)

/-! ### difflib similarity ratio (`SequenceMatcher(None, a, b).ratio()`)

Modelled without junk handling: `autojunk` only affects sequences of
length at least 200, which never rise in this repository's contact
names.  The ratio is computed exactly in `ℚ` instead of binary floats. -/

/-- Length of the common prefix of two lists. -/
def cpl : List Char → List Char → Nat
  | a :: as, b :: bs => if a == b then cpl as bs + 1 else 0
  | _, _ => 0

/-- All candidate matching blocks `(i, j, k)`: start offsets and the
maximal run length at that pair of offsets. -/
def flmCands (a b : List Char) : List (Nat × Nat × Nat) :=
  (List.range a.length).flatMap fun i =>
    (List.range b.length).map fun j => (i, j, cpl (a.drop i) (b.drop j))

/-- `find_longest_match`: maximal block, ties broken towards the earliest
start in `a` and then the earliest start in `b` (difflib's documented
tie-break). -/
def flm (a b : List Char) : Nat × Nat × Nat :=
  (flmCands a b).foldl (fun best c => if best.2.2 < c.2.2 then c else best) (0, 0, 0)

/-- Total number of matched characters over the recursive decomposition
of `get_matching_blocks` (fuel-driven; `a.length + 1` always suffices
because each recursion strictly shrinks the `a` segment). -/
def romatchGo : Nat → List Char → List Char → Nat
  | 0, _, _ => 0
  | fuel + 1, a, b =>
    let m := flm a b
    if m.2.2 == 0 then 0
    else
      romatchGo fuel (a.take m.1) (b.take m.2.1) + m.2.2 +
        romatchGo fuel (a.drop (m.1 + m.2.2)) (b.drop (m.2.1 + m.2.2))

/-- Matched-character total for two sequences. -/
def romatch (a b : List Char) : Nat := romatchGo (a.length + 1) a b

/-- `SequenceMatcher.ratio()`: `2·M / (len(a) + len(b))` as an exact
rational, and `1` for two empty sequences. -/
def ratioQ (a b : List Char) : ℚ :=
  if a.length + b.length = 0 then 1
  else mkRat (2 * (romatch a b : Int)) (a.length + b.length)

/-! ### Contact resolution (`ContactManager.find_email`) -/

/-- Outcome of fetching the contact table (the `values().get().execute()`
call): the parsed rows, or an exception message. -/
inductive SheetsFetch where
  | ok (rows : List (List (List Char)))
  | exn (e : List Char)

/-- The scanning loop of `find_email` over the data rows: an immediate
return on substring containment, otherwise fuzzy best-match tracking with
the `score > 0.6 and score > highest_score` update rule. -/
def findLoop (score : List Char → List Char → ℚ) (target : List Char) :
    List (List (List Char)) → Option (List Char) → ℚ → List Char
  | [], best, _ =>
    match best with
    | some e => e
    | none => chars "BULUNAMADI"
  | row :: rest, best, hs =>
    match row with
    | r0 :: r1 :: _ =>
      let cname := stripL (lowerL r0)
      let cemail := stripL r1
      if containsL cname target then cemail
      else
        let sc := score target cname
        if sc > mkRat 3 5 ∧ sc > hs then findLoop score target rest (some cemail) sc
        else findLoop score target rest best hs
    | _ => findLoop score target rest best hs

/-- `ContactManager.find_email`: sheet-handle failure and fetch failure
become sentinel strings, a short table returns the "empty" sentinel, and
otherwise the data rows (header dropped) are scanned. -/
def find_email (sheet_id : Option (List Char)) (fetch : SheetsFetch) (name : List Char) :
    List Char :=
  match sheet_id with
  | none => chars "HATA: Rehber erişilemedi."
  | some _ =>
    match fetch with
    | .exn e => chars "HATA: " ++ e
    | .ok rows =>
      if rows.length < 2 then chars "Rehber boş."
      else findLoop ratioQ (stripL (lowerL name)) (rows.drop 1) none 0

/-! ### The two-pass reference algorithm of the specification (§4.6) -/

/-- Normalised `(name, email)` of a row with at least two cells. -/
def validRow : List (List Char) → Option (List Char × List Char)
  | r0 :: r1 :: _ => some (stripL (lowerL r0), stripL r1)
  | _ => none

/-- Pass 1: email of the first row whose normalised name contains the
query as a substring. -/
def firstContainment (target : List Char) : List (List (List Char)) → Option (List Char)
  | [] => none
  | row :: rest =>
    match validRow row with
    | some (cname, cemail) =>
      if containsL cname target then some cemail else firstContainment target rest
    | none => firstContainment target rest

/-- Scored `(email, similarity)` pairs of all valid rows, in table order. -/
def rowScores (score : List Char → List Char → ℚ) (target : List Char)
    (rows : List (List (List Char))) : List (List Char × ℚ) :=
  rows.filterMap fun row => (validRow row).map fun p => (p.2, score target p.1)

/-- Maximum of the scores (zero for an empty list). -/
def maxScore (l : List (List Char × ℚ)) : ℚ := l.foldr (fun p m => max p.2 m) 0

/-- First entry achieving the given score. -/
def firstArgmax (m : ℚ) : List (List Char × ℚ) → Option (List Char)
  | [] => none
  | p :: t => if p.2 = m then some p.1 else firstArgmax m t

/-- Pass 2 as the specification words it: compute every similarity, take
the maximum, accept only if it strictly exceeds `0.6`, ties keeping the
first-seen highest score. -/
def twoPassFind (score : List Char → List Char → ℚ) (target : List Char)
    (rows : List (List (List Char))) : List Char :=
  match firstContainment target rows with
  | some e => e
  | none =>
    let scores := rowScores score target rows
    let m := maxScore scores
    if m > mkRat 3 5 then (firstArgmax m scores).getD (chars "BULUNAMADI")
    else chars "BULUNAMADI"

/-! ### Intent engines (`OllamaClient`)

The single `ollama.chat` call of each method is modelled by its observed
behaviour: the returned message content, or the raised exception's string
rendering. -/

/-- The fallback record of `generate_summary_and_reply`'s `except` arm. -/
def fallbackSummary (e : List Char) : JValue :=
  .obj (objOf [(chars "summary", .str (chars "Hata")),
    (chars "draft_reply", .str (chars "Hata: " ++ e)),
    (chars "detected_date", .null),
    (chars "meeting_title", .str (chars "Hata"))])

/-- `OllamaClient.generate_summary_and_reply`: parse the backend text; a
falsy parse raises `ValueError("Boş Yanıt")`, caught by the same handler
as a backend failure. -/
def generate_summary_and_reply (resp : Except (List Char) (List Char)) : JValue :=
  match resp with
  | .error e => fallbackSummary e
  | .ok text =>
    match cleanAndParse text with
    | some r => if pyTruthy r then r else fallbackSummary (chars "Boş Yanıt")
    | none => fallbackSummary (chars "Boş Yanıt")

/-- The fallback record of `decide_action` when the parse is falsy. -/
def decideFallbackParse : JValue :=
  .obj (objOf [(chars "target_name", .null),
    (chars "draft_text", .str (chars "AI yanıtı anlaşılamadı.")),
    (chars "extracted_date", .null),
    (chars "meeting_title", .str (chars "Hata"))])

/-- The fallback record of `decide_action`'s `except` arm. -/
def decideFallbackRaise : JValue :=
  .obj (objOf [(chars "target_name", .null),
    (chars "draft_text", .str (chars "Sistem hatası.")),
    (chars "extracted_date", .null),
    (chars "meeting_title", .str (chars "Hata"))])

/-- `OllamaClient.decide_action`. -/
def decide_action (resp : Except (List Char) (List Char)) : JValue :=
  match resp with
  | .error _ => decideFallbackRaise
  | .ok text =>
    match cleanAndParse text with
    | some r => if pyTruthy r then r else decideFallbackParse
    | none => decideFallbackParse

/-! ### Temporal grounding (`BaseAIEngine._get_time_context`)

`datetime.now()` is sampled once; the block is a pure function of that
sample.  Weekday names follow the Turkish locale the module configures
(the claim is independent of the particular name table). -/

/-- A naive `datetime` value (microseconds never surface in the printed
context and are omitted). -/
structure PyDateTime where
  year : Nat
  month : Nat
  day : Nat
  hour : Nat
  minute : Nat
  second : Nat
deriving DecidableEq, Repr

/-- Gregorian leap-year rule. -/
def isLeap (y : Nat) : Bool := (y % 4 == 0 && y % 100 != 0) || y % 400 == 0

/-- Days in a month. -/
def daysInMonth (y m : Nat) : Nat :=
  if m == 2 then (if isLeap y then 29 else 28)
  else if m == 4 || m == 6 || m == 9 || m == 11 then 30
  else 31

/-- The calendar successor day, keeping the time of day. -/
def nextDay (t : PyDateTime) : PyDateTime :=
  if t.day < daysInMonth t.year t.month then { t with day := t.day + 1 }
  else if t.month < 12 then { t with day := 1, month := t.month + 1 }
  else { t with day := 1, month := 1, year := t.year + 1 }

/-- `t + timedelta(days == n)` on a naive datetime. -/
def addDays : Nat → PyDateTime → PyDateTime
  | 0, t => t
  | n + 1, t => addDays n (nextDay t)

/-- `t + timedelta(hours == 1)` on a naive datetime. -/
def addHour (t : PyDateTime) : PyDateTime :=
  if t.hour + 1 < 24 then { t with hour := t.hour + 1 }
  else { nextDay t with hour := 0 }

/-- Two-digit zero-padded field (`%m`, `%d`, `%H`, `%M`). -/
def pad2 (n : Nat) : List Char := if n < 10 then '0' :: natDigits n else natDigits n

/-- Four-digit zero-padded year (`%Y` on glibc). -/
def pad4 (n : Nat) : List Char :=
  List.replicate (4 - (natDigits n).length) '0' ++ natDigits n

/-- `strftime('%Y-%m-%d')`. -/
def dateStr (t : PyDateTime) : List Char :=
  pad4 t.year ++ '-' :: pad2 t.month ++ '-' :: pad2 t.day

/-- `strftime('%H:%M')`. -/
def timeHM (t : PyDateTime) : List Char := pad2 t.hour ++ ':' :: pad2 t.minute

/-- Day of week by Sakamoto's method, `0` meaning Sunday. -/
def dayOfWeek (y m d : Nat) : Nat :=
  let tbl : List Nat := [0, 3, 2, 5, 0, 3, 5, 1, 4, 6, 2, 4]
  let y2 := if m < 3 then y - 1 else y
  (y2 + y2 / 4 - y2 / 100 + y2 / 400 + tbl.getD (m - 1) 0 + d) % 7

/-- `strftime('%A')` under the configured Turkish locale. -/
def weekdayName (t : PyDateTime) : List Char :=
  match dayOfWeek t.year t.month t.day with
  | 0 => chars "Pazar"
  | 1 => chars "Pazartesi"
  | 2 => chars "Salı"
  | 3 => chars "Çarşamba"
  | 4 => chars "Perşembe"
  | 5 => chars "Cuma"
  | _ => chars "Cumartesi"

/-- `BaseAIEngine._get_time_context` as a function of the sampled clock
instant. -/
def get_time_context (now : PyDateTime) : List Char :=
  let tomorrow := addDays 1 now
  let next_week := addDays 7 now
  chars "\n        REFERANS ZAMAN BİLGİLERİ (Buna Kesinlikle Uy):\n        - BUGÜNÜN TARİHİ: "
    ++ dateStr now ++ chars " (" ++ weekdayName now
    ++ chars ")\n        - ŞU ANKİ SAAT: " ++ timeHM now
    ++ chars "\n        - YARININ TARİHİ: " ++ dateStr tomorrow ++ chars " (" ++ weekdayName tomorrow
    ++ chars ")\n        - HAFTAYA BUGÜN: " ++ dateStr next_week
    ++ chars "\n        - BULUNDUĞUMUZ YIL: " ++ natDigits now.year ++ chars "\n        "

/-- The same template as an explicit function of its seven field values,
used to state what the block is a function of. -/
def timeContextTemplate (today wdToday hm tomorrow wdTomorrow weekAhead yr : List Char) :
    List Char :=
  chars "\n        REFERANS ZAMAN BİLGİLERİ (Buna Kesinlikle Uy):\n        - BUGÜNÜN TARİHİ: "
    ++ today ++ chars " (" ++ wdToday
    ++ chars ")\n        - ŞU ANKİ SAAT: " ++ hm
    ++ chars "\n        - YARININ TARİHİ: " ++ tomorrow ++ chars " (" ++ wdTomorrow
    ++ chars ")\n        - HAFTAYA BUGÜN: " ++ weekAhead
    ++ chars "\n        - BULUNDUĞUMUZ YIL: " ++ yr ++ chars "\n        "

/-! ### Calendar scheduling (`CalendarManager.schedule`) -/

/-- `iso_datetime.replace("Z", "")`: every `Z` removed. -/
def removeZ (s : List Char) : List Char := s.filter (fun c => c != 'Z')

/-- The specification's reading: strip one trailing `Z` only. -/
def stripTrailingZ (s : List Char) : List Char :=
  if headIs s.reverse 'Z' then s.dropLast else s

/-- `datetime.fromisoformat` (model subset: `YYYY-MM-DD`, optionally one
separator character and `HH`, `HH:MM` or `HH:MM:SS`; fractional seconds
and UTC offsets are outside the model). -/
def fromIso (s : List Char) : Option PyDateTime :=
  match s with
  | y1 :: y2 :: y3 :: y4 :: '-' :: m1 :: m2 :: '-' :: d1 :: d2 :: rest =>
    if y1.isDigit && y2.isDigit && y3.isDigit && y4.isDigit &&
        m1.isDigit && m2.isDigit && d1.isDigit && d2.isDigit then
      let y := 1000 * digitVal y1 + 100 * digitVal y2 + 10 * digitVal y3 + digitVal y4
      let m := 10 * digitVal m1 + digitVal m2
      let d := 10 * digitVal d1 + digitVal d2
      if 1 ≤ y ∧ 1 ≤ m ∧ m ≤ 12 ∧ 1 ≤ d ∧ d ≤ daysInMonth y m then
        match rest with
        | [] => some ⟨y, m, d, 0, 0, 0⟩
        | _ :: h1 :: h2 :: t2 =>
          if h1.isDigit && h2.isDigit then
            let hh := 10 * digitVal h1 + digitVal h2
            if hh < 24 then
              match t2 with
              | [] => some ⟨y, m, d, hh, 0, 0⟩
              | ':' :: i1 :: i2 :: t3 =>
                if i1.isDigit && i2.isDigit then
                  let mi := 10 * digitVal i1 + digitVal i2
                  if mi < 60 then
                    match t3 with
                    | [] => some ⟨y, m, d, hh, mi, 0⟩
                    | ':' :: s1 :: s2 :: [] =>
                      if s1.isDigit && s2.isDigit then
                        let ss := 10 * digitVal s1 + digitVal s2
                        if ss < 60 then some ⟨y, m, d, hh, mi, ss⟩ else none
                      else none
                    | _ => none
                  else none
                else none
              | _ => none
            else none
          else none
        | _ => none
      else none
    else none
  | _ => none

/-- A Google Calendar event body as built by `schedule`. -/
structure CalEvent where
  summary : List Char
  startT : PyDateTime
  endT : PyDateTime
deriving DecidableEq, Repr

/-- `CalendarManager.schedule`: returns the confirmation or error text,
together with the event inserted on the success path (`none` when no
insert succeeded).  `ins` is the behaviour of the `events().insert`
call. -/
def schedule (ins : Except (List Char) Unit) (summary iso_datetime : List Char) :
    List Char × Option CalEvent :=
  if iso_datetime.isEmpty then (chars "Tarih hatası", none)
  else
    match fromIso (removeZ iso_datetime) with
    | none => (chars "Takvim Hatası: Invalid isoformat string", none)
    | some start_dt =>
      let end_dt := addHour start_dt
      match ins with
      | .ok _ => (chars "Takvime Eklendi: " ++ timeHM start_dt, some ⟨summary, start_dt, end_dt⟩)
      | .error e => (chars "Takvim Hatası: " ++ e, none)

/-! ### The task router (`Worker._run_async` / `Worker.run`) -/

/-- ASCII model of the regex word class `[\w.-]`. -/
def wordChar (c : Char) : Bool :=
  c.isAlpha || c.isDigit || c == '_' || c == '.' || c == '-'

/-- The email pattern `[\w.-]+@[\w.-]+` anchored at the head of `s`. -/
def emailAt (s : List Char) : Option (List Char) :=
  let r1 := s.takeWhile wordChar
  let rest := s.drop r1.length
  if r1.isEmpty then none
  else if headIs rest '@' then
    let r2 := rest.tail.takeWhile wordChar
    if r2.isEmpty then none else some (r1 ++ '@' :: r2)
  else none

/-- The literal part of the sender regex. -/
def senderMarker : List Char := chars "SenderEmail: "

/-- `re.search(r"SenderEmail: ([\w.-]+@[\w.-]+)", raw).group(1)`:
leftmost full match wins. -/
def extractSender : List Char → Option (List Char)
  | [] => none
  | c :: t =>
    match (if startsWithL (c :: t) senderMarker
           then emailAt ((c :: t).drop senderMarker.length) else none) with
    | some em => some em
    | none => extractSender t

/-- `None` / string result as a JSON-dictionary value. -/
def optStrJ : Option (List Char) → JValue
  | none => .null
  | some s => .str s

/-- Observable behaviour of one `Worker` run's external collaborators:
the session handshake, each MCP tool call, and each Ollama call either
returns text or raises (carrying its rendered message). -/
structure WEnv where
  sessionInit : Except (List Char) Unit
  getLatestEmail : Except (List Char) (List Char)
  ollamaSummary : Except (List Char) (List Char)
  ollamaDecide : Except (List Char) (List Char)
  findEmailTool : JValue → Except (List Char) (List Char)
  sendEmailTool : Except (List Char) Unit
  scheduleTool : Except (List Char) (List Char)

/-- `{"status": ..., ..., **ai_res}`: the literal fields updated by the
engine record; a non-mapping engine result raises a `TypeError`. -/
def mergeBase (base : List (List Char × JValue)) (ai : JValue) : Except (List Char) JObj :=
  match ai with
  | .obj fs => .ok (pyUpdate (objOf base) fs)
  | _ => .error (chars "TypeError: argument is not a mapping")

/-- `Worker._run_async`: the task router.  `.error` carries an exception
escaping to `Worker.run`; `.ok none` is the implicit `None` returned for
an unknown task identifier. -/
def run_async (env : WEnv) (task : List Char) : Except (List Char) (Option JObj) :=
  match env.sessionInit with
  | .error e => .error e
  | .ok _ =>
    if task == chars "analyze_last_mail" then
      match env.getLatestEmail with
      | .error e => .error e
      | .ok raw =>
        let sender_email := extractSender raw
        let ai_res := generate_summary_and_reply env.ollamaSummary
        (mergeBase [(chars "status", .str (chars "success")),
          (chars "raw_mail", .str raw),
          (chars "sender", optStrJ sender_email)] ai_res).map some
    else if task == chars "process_command" then
      let ai_res := decide_action env.ollamaDecide
      match ai_res with
      | .obj fs =>
        let found : Except (List Char) (Option (List Char)) :=
          if pyTruthyOpt (getJ fs (chars "target_name")) then
            match env.findEmailTool ((getJ fs (chars "target_name")).getD .null) with
            | .error e => .error e
            | .ok t => .ok (if containsL t ['@'] then some t else none)
          else .ok none
        match found with
        | .error e => .error e
        | .ok fe =>
          .ok (some (pyUpdate (objOf [(chars "status", .str (chars "command_processed")),
            (chars "found_email", optStrJ fe)]) fs))
      | _ => .error (chars "AttributeError: no attribute get")
    else if task == chars "send_reply" then
      match env.sendEmailTool with
      | .error e => .error e
      | .ok _ => .ok (some (objOf [(chars "status", .str (chars "sent"))]))
    else if task == chars "add_calendar" then
      match env.scheduleTool with
      | .error e => .error e
      | .ok msg => .ok (some (objOf [(chars "status", .str (chars "calendar_added")),
          (chars "msg", .str msg)]))
    else .ok none

/-- `Worker.run`: the single value carried by the one `finished.emit`
call of a run (the queued cross-thread emit itself is modelled as
non-raising). -/
def worker_run (env : WEnv) (task : List Char) : Option JObj :=
  match run_async env task with
  | .ok r => r
  | .error e => some (objOf [(chars "status", .str (chars "error")), (chars "msg", .str e)])

/-- The list of emissions of one `Worker.run` call. -/
def worker_emissions (env : WEnv) (task : List Char) : List (Option JObj) :=
  [worker_run env task]

/-- The four routed task identifiers. -/
def knownTask (task : List Char) : Bool :=
  task == chars "analyze_last_mail" || task == chars "process_command" ||
    task == chars "send_reply" || task == chars "add_calendar"

/-- Field access on a JSON value that should be an object. -/
def getField : JValue → List Char → Option JValue
  | .obj fs, k => getJ fs k
  | _, _ => none

/-! ### Concrete run environments used by closed statements -/

/-- A run whose session handshake raises an exception with an empty
string rendering (as `str(Exception())` is). -/
def envEmptyMsg : WEnv :=
  ⟨.error [], .error [], .error [], .error [], fun _ => .error [], .error [], .error []⟩

/-- An analyze run whose model output itself binds `"status": "error"`. -/
def envStatusCollide : WEnv :=
  ⟨.ok (), .ok (chars "SenderEmail: real@x.y\nContent: hi"),
    .ok (chars "\x7b\"status\": \"error\", \"summary\": \"s\"\x7d"),
    .error [], fun _ => .error [], .error [], .error []⟩

/-- An analyze run whose model output rebinds `"status"`, `"raw_mail"`
and `"sender"`. -/
def envC9a : WEnv :=
  ⟨.ok (), .ok (chars "SenderEmail: real@x.y\nContent: hi"),
    .ok (chars "\x7b\"status\": \"hacked\", \"raw_mail\": \"fake\", \"sender\": \"fake@spoof\", \"summary\": \"s\"\x7d"),
    .error [], fun _ => .error [], .error [], .error []⟩

/-- A command run whose model output rebinds `"status"` and
`"found_email"` while the resolver finds a real address. -/
def envC9b : WEnv :=
  ⟨.ok (), .error [],
    .error [],
    .ok (chars "\x7b\"target_name\": \"Ali\", \"status\": \"hacked\", \"found_email\": \"spoof\"\x7d"),
    fun _ => .ok (chars "real@x.y"), .error [], .error []⟩

/-- A command run whose model output rebinds `"status"` and
`"found_email"` and whose resolver answers the not-found sentinel. -/
def envC6x : WEnv :=
  ⟨.ok (), .error [],
    .error [],
    .ok (chars "\x7b\"target_name\": \"Ali\", \"status\": \"error\", \"found_email\": \"spoof\"\x7d"),
    fun _ => .ok (chars "BULUNAMADI"), .error [], .error []⟩

/-- A well-behaved command run: a clean decision record and a resolver
answering the not-found sentinel. -/
def envC6good : WEnv :=
  ⟨.ok (), .error [],
    .error [],
    .ok (chars "\x7b\"target_name\": \"Ali\", \"draft_text\": \"m\", \"extracted_date\": null, \"meeting_title\": \"T\"\x7d"),
    fun _ => .ok (chars "BULUNAMADI"), .error [], .error []⟩

/-- A well-behaved analyze run: a clean summary record without reserved
keys. -/
def envHappy : WEnv :=
  ⟨.ok (), .ok (chars "SenderEmail: a@x.y\nContent: hi"),
    .ok (chars "\x7b\"summary\": \"s\", \"draft_reply\": \"d\", \"detected_date\": null, \"meeting_title\": \"T\"\x7d"),
    .error [], fun _ => .error [], .error [], .error []⟩

/-! ## Theorems -/

/-- Unfolding equation of `generate_summary_and_reply` on backend text. -/
theorem generate_ok_eq (t : List Char) :
    generate_summary_and_reply (.ok t) =
      (match cleanAndParse t with
       | some r => if pyTruthy r then r else fallbackSummary (chars "Boş Yanıt")
       | none => fallbackSummary (chars "Boş Yanıt")) := rfl

/-- Unfolding equation of `decide_action` on backend text. -/
theorem decide_ok_eq (t : List Char) :
    decide_action (.ok t) =
      (match cleanAndParse t with
       | some r => if pyTruthy r then r else decideFallbackParse
       | none => decideFallbackParse) := rfl

/-- C2: for both intent-engine operations and every failing backend
behaviour — the call raises, or the text fails both sanitizer passes —
the operation returns its fallback record: title/summary field an error
sentinel, date field null. -/
theorem C2_engine_failure_is_wellshaped_fallback :
    (∀ e, generate_summary_and_reply (.error e) = fallbackSummary e ∧
      getField (generate_summary_and_reply (.error e)) (chars "summary")
        = some (.str (chars "Hata")) ∧
      getField (generate_summary_and_reply (.error e)) (chars "detected_date") = some .null ∧
      getField (generate_summary_and_reply (.error e)) (chars "meeting_title")
        = some (.str (chars "Hata"))) ∧
    (∀ t, cleanAndParse t = none →
      generate_summary_and_reply (.ok t) = fallbackSummary (chars "Boş Yanıt") ∧
      getField (generate_summary_and_reply (.ok t)) (chars "summary")
        = some (.str (chars "Hata")) ∧
      getField (generate_summary_and_reply (.ok t)) (chars "detected_date") = some .null) ∧
    (∀ e, decide_action (.error e) = decideFallbackRaise ∧
      getField (decide_action (.error e)) (chars "meeting_title") = some (.str (chars "Hata")) ∧
      getField (decide_action (.error e)) (chars "extracted_date") = some .null ∧
      getField (decide_action (.error e)) (chars "target_name") = some .null) ∧
    (∀ t, cleanAndParse t = none →
      decide_action (.ok t) = decideFallbackParse ∧
      getField (decide_action (.ok t)) (chars "meeting_title") = some (.str (chars "Hata")) ∧
      getField (decide_action (.ok t)) (chars "extracted_date") = some .null) := by
  refine ⟨fun e => ⟨rfl, rfl, rfl, rfl⟩, fun t h => ?_, fun e => ⟨rfl, rfl, rfl, rfl⟩,
    fun t h => ?_⟩
  · have hg : generate_summary_and_reply (.ok t) = fallbackSummary (chars "Boş Yanıt") := by
      rw [generate_ok_eq, h]
    rw [hg]
    exact ⟨rfl, rfl, rfl⟩
  · have hg : decide_action (.ok t) = decideFallbackParse := by
      rw [decide_ok_eq, h]
    rw [hg]
    exact ⟨rfl, rfl, rfl⟩

/-- C2 witness: the fallback behaviour at a concrete unparseable text. -/
theorem C2_engine_failure_witness :
    cleanAndParse (chars "not json at all") = none ∧
    generate_summary_and_reply (.ok (chars "not json at all"))
      = fallbackSummary (chars "Boş Yanıt") ∧
    decide_action (.ok (chars "not json at all")) = decideFallbackParse :=
  ⟨rfl, (C2_engine_failure_is_wellshaped_fallback.2.1 (chars "not json at all") rfl).1,
    (C2_engine_failure_is_wellshaped_fallback.2.2.2 (chars "not json at all") rfl).1⟩

/-- C7: `find_email` never raises — an unresolvable sheet handle gives an
error sentinel, a table of fewer than two rows gives the "empty" sentinel
(independently of any scoring), and a fetch exception is converted to an
error sentinel string. -/
theorem C7_find_email_never_raises :
    (∀ fetch name, find_email none fetch name = chars "HATA: Rehber erişilemedi.") ∧
    (∀ id rows name, rows.length < 2 →
      find_email (some id) (.ok rows) name = chars "Rehber boş.") ∧
    (∀ id e name, find_email (some id) (.exn e) name = chars "HATA: " ++ e) := by
  refine ⟨fun fetch name => rfl, fun id rows name h => ?_, fun id e name => rfl⟩
  simp only [find_email, if_pos h]

/-- C7 witness: the header-only table. -/
theorem C7_find_email_witness :
    find_email (some (chars "sheet1")) (.ok [[chars "İsim Soyisim", chars "E-Posta Adresi"]])
      (chars "Engin") = chars "Rehber boş." :=
  C7_find_email_never_raises.2.1 (chars "sheet1")
    [[chars "İsim Soyisim", chars "E-Posta Adresi"]] (chars "Engin") (by decide)

/-- C8: the temporal-context block is a pure function of the single
sampled instant `t`: its today date, weekday, time and year come from
`t`, its tomorrow fields from `t` plus one calendar day, and its week
ahead date from `t` plus seven calendar days. -/
theorem C8_time_context_pure_function_of_sample :
    ∀ t, get_time_context t =
      timeContextTemplate (dateStr t) (weekdayName t) (timeHM t)
        (dateStr (addDays 1 t)) (weekdayName (addDays 1 t))
        (dateStr (addDays 7 t)) (natDigits t.year) :=
  fun _ => rfl

/-- C9: the engine record is merged after the router's fields, so model
output binding `status`, `raw_mail`, `sender` or `found_email` replaces
the router-set value in the emitted TaskResult. -/
theorem C9_model_output_overrides_router_fields :
    run_async envC9a (chars "analyze_last_mail") =
      .ok (some (objOf [(chars "status", .str (chars "hacked")),
        (chars "raw_mail", .str (chars "fake")),
        (chars "sender", .str (chars "fake@spoof")),
        (chars "summary", .str (chars "s"))])) ∧
    envC9a.getLatestEmail = .ok (chars "SenderEmail: real@x.y\nContent: hi") ∧
    extractSender (chars "SenderEmail: real@x.y\nContent: hi") = some (chars "real@x.y") ∧
    worker_run envC9b (chars "process_command") =
      some (objOf [(chars "status", .str (chars "hacked")),
        (chars "found_email", .str (chars "spoof")),
        (chars "target_name", .str (chars "Ali"))]) ∧
    envC9b.findEmailTool (.str (chars "Ali")) = .ok (chars "real@x.y") :=
  ⟨rfl, rfl, rfl, rfl, rfl⟩

/-- C10 counterexample: `"2026Z-01-05T09:00:00"` schedules successfully —
the code removes every `Z` — although parsing it after stripping only a
trailing `Z` fails, refuting the claim's description of the parse. -/
theorem C10_trailing_z_counterexample :
    schedule (.ok ()) (chars "Toplantı") (chars "2026Z-01-05T09:00:00")
      = (chars "Takvime Eklendi: 09:00",
          some ⟨chars "Toplantı", ⟨2026, 1, 5, 9, 0, 0⟩, ⟨2026, 1, 5, 10, 0, 0⟩⟩) ∧
    fromIso (stripTrailingZ (chars "2026Z-01-05T09:00:00")) = none :=
  ⟨rfl, rfl⟩

/-- C10 amended: every successfully scheduled meeting lasts exactly one
hour — the event end is the parsed start plus one hour — where the start
is parsed from `iso_datetime` after removing every `Z` character; an
empty `iso_datetime` yields the date-error message and no event, and all
other failures are returned as error text with no event. -/
theorem C10_schedule_one_hour_amended :
    (∀ ins summary iso msg ev, schedule ins summary iso = (msg, some ev) →
      ev.endT = addHour ev.startT ∧ fromIso (removeZ iso) = some ev.startT ∧
      ev.summary = summary ∧ msg = chars "Takvime Eklendi: " ++ timeHM ev.startT) ∧
    (∀ ins summary, schedule ins summary [] = (chars "Tarih hatası", none)) ∧
    (∀ ins summary iso, iso ≠ [] → fromIso (removeZ iso) = none →
      schedule ins summary iso = (chars "Takvim Hatası: Invalid isoformat string", none)) ∧
    (∀ e summary iso start_dt, iso ≠ [] → fromIso (removeZ iso) = some start_dt →
      schedule (.error e) summary iso = (chars "Takvim Hatası: " ++ e, none)) := by
  refine ⟨fun ins summary iso msg ev h => ?_, fun ins summary => rfl,
    fun ins summary iso h1 h2 => ?_, fun e summary iso start_dt h1 h2 => ?_⟩
  · by_cases he : iso.isEmpty
    · simp only [schedule, if_pos he, Prod.mk.injEq] at h
      exact absurd h.2 (by simp)
    · simp only [schedule, if_neg he] at h
      cases hp : fromIso (removeZ iso) with
      | none =>
        rw [hp] at h
        simp only [Prod.mk.injEq] at h
        exact absurd h.2 (by simp)
      | some start_dt =>
        rw [hp] at h
        cases ins with
        | error e =>
          simp only [Prod.mk.injEq] at h
          exact absurd h.2 (by simp)
        | ok u =>
          simp only [Prod.mk.injEq, Option.some.injEq] at h
          obtain ⟨hmsg, hev⟩ := h
          subst hev
          exact ⟨rfl, rfl, rfl, hmsg.symm⟩
  · cases iso with
    | nil => exact absurd rfl h1
    | cons a t => simp [schedule, h2]
  · cases iso with
    | nil => exact absurd rfl h1
    | cons a t => simp [schedule, h2]

/-- C10 witness: a concrete scheduled meeting with its one-hour span. -/
theorem C10_schedule_one_hour_witness :
    (⟨chars "T", ⟨2026, 1, 5, 9, 0, 0⟩, ⟨2026, 1, 5, 10, 0, 0⟩⟩ : CalEvent).endT
      = addHour (⟨chars "T", ⟨2026, 1, 5, 9, 0, 0⟩, ⟨2026, 1, 5, 10, 0, 0⟩⟩ : CalEvent).startT ∧
    fromIso (removeZ (chars "2026-01-05T09:00:00Z"))
      = some (⟨chars "T", ⟨2026, 1, 5, 9, 0, 0⟩, ⟨2026, 1, 5, 10, 0, 0⟩⟩ : CalEvent).startT :=
  ⟨(C10_schedule_one_hour_amended.1 (.ok ()) (chars "T") (chars "2026-01-05T09:00:00Z")
      (chars "Takvime Eklendi: 09:00")
      ⟨chars "T", ⟨2026, 1, 5, 9, 0, 0⟩, ⟨2026, 1, 5, 10, 0, 0⟩⟩ rfl).1,
    (C10_schedule_one_hour_amended.1 (.ok ()) (chars "T") (chars "2026-01-05T09:00:00Z")
      (chars "Takvime Eklendi: 09:00")
      ⟨chars "T", ⟨2026, 1, 5, 9, 0, 0⟩, ⟨2026, 1, 5, 10, 0, 0⟩⟩ rfl).2.1⟩

/-! ### Dictionary-merge lemmas for the task router -/

/-- `setKey` does not touch other keys. -/
theorem getJ_setKey_ne (k0 k : List Char) (v0 : JValue) (h : (k0 == k) = false) :
    ∀ (d : JObj), getJ (setKey d k0 v0) k = getJ d k
  | .nil => by simp [setKey, getJ, h]
  | .cons k1 v1 tl => by
    by_cases h1 : (k1 == k0) = true
    · have hk1 : k1 = k0 := eq_of_beq h1
      simp [setKey, h1, getJ, hk1, h]
    · simp only [setKey, h1, Bool.false_eq_true, if_false, getJ]
      by_cases h2 : (k1 == k) = true
      · simp [h2]
      · simp [h2, getJ_setKey_ne k0 k v0 h tl]

/-- Updating with a record that does not bind `k` leaves `k`'s value. -/
theorem getJ_pyUpdate_of_not_has (k : List Char) :
    ∀ (u : JObj) (d : JObj), hasKey u k = false → getJ (pyUpdate d u) k = getJ d k
  | .nil, d, _ => rfl
  | .cons k0 v0 tl, d, h => by
    simp only [hasKey, Bool.or_eq_false_iff] at h
    simp only [pyUpdate]
    rw [getJ_pyUpdate_of_not_has k tl (setKey d k0 v0) h.2, getJ_setKey_ne k0 k v0 h.1 d]

/-- A successful `{**base, **ai}` merge forces `ai` to be an object. -/
theorem mergeBase_ok {base : List (List Char × JValue)} {ai : JValue} {o : JObj}
    (h : mergeBase base ai = .ok o) : ∃ fs, ai = .obj fs ∧ o = pyUpdate (objOf base) fs := by
  cases ai with
  | obj fs =>
    refine ⟨fs, rfl, ?_⟩
    simp only [mergeBase, Except.ok.injEq] at h
    exact h.symm
  | null => simp [mergeBase] at h
  | bool b => simp [mergeBase] at h
  | int n => simp [mergeBase] at h
  | str s => simp [mergeBase] at h
  | arr es => simp [mergeBase] at h

/-- Unfolding of the router on the `analyze_last_mail` branch. -/
theorem run_async_analyze (env : WEnv) :
    run_async env (chars "analyze_last_mail") =
      (match env.sessionInit with
       | .error e => .error e
       | .ok _ =>
         match env.getLatestEmail with
         | .error e => .error e
         | .ok raw =>
           (mergeBase [(chars "status", .str (chars "success")),
             (chars "raw_mail", .str raw),
             (chars "sender", optStrJ (extractSender raw))]
             (generate_summary_and_reply env.ollamaSummary)).map some) := rfl

/-- Unfolding of the router on the `process_command` branch. -/
theorem run_async_process (env : WEnv) :
    run_async env (chars "process_command") =
      (match env.sessionInit with
       | .error e => .error e
       | .ok _ =>
         match decide_action env.ollamaDecide with
         | .obj fs =>
           (match (if pyTruthyOpt (getJ fs (chars "target_name")) then
               match env.findEmailTool ((getJ fs (chars "target_name")).getD .null) with
               | .error e => .error e
               | .ok t => .ok (if containsL t ['@'] then some t else none)
             else .ok none : Except (List Char) (Option (List Char))) with
           | .error e => .error e
           | .ok fe =>
             .ok (some (pyUpdate (objOf [(chars "status", .str (chars "command_processed")),
               (chars "found_email", optStrJ fe)]) fs)))
         | _ => .error (chars "AttributeError: no attribute get")) := rfl

/-- Unfolding of the router on the `send_reply` branch. -/
theorem run_async_send (env : WEnv) :
    run_async env (chars "send_reply") =
      (match env.sessionInit with
       | .error e => .error e
       | .ok _ =>
         match env.sendEmailTool with
         | .error e => .error e
         | .ok _ => .ok (some (objOf [(chars "status", .str (chars "sent"))]))) := rfl

/-- Unfolding of the router on the `add_calendar` branch. -/
theorem run_async_cal (env : WEnv) :
    run_async env (chars "add_calendar") =
      (match env.sessionInit with
       | .error e => .error e
       | .ok _ =>
         match env.scheduleTool with
         | .error e => .error e
         | .ok msg => .ok (some (objOf [(chars "status", .str (chars "calendar_added")),
             (chars "msg", .str msg)]))) := rfl

/-- Unfolding equation of `worker_run`. -/
theorem worker_run_eq (env : WEnv) (task : List Char) :
    worker_run env task =
      (match run_async env task with
       | .ok r => r
       | .error e =>
         some (objOf [(chars "status", .str (chars "error")), (chars "msg", .str e)])) := rfl

/-- C1 counterexample: the claim fails twice on the code.  A run whose
session handshake raises an exception with empty rendering emits a
TaskResult whose error message is empty; and an analyze run whose model
output itself binds `"status": "error"` emits a result with status
`error` although no exception was raised. -/
theorem C1_counterexample_empty_msg_and_collision :
    worker_run envEmptyMsg (chars "send_reply")
      = some (objOf [(chars "status", .str (chars "error")), (chars "msg", .str [])]) ∧
    run_async envStatusCollide (chars "analyze_last_mail")
      = .ok (some (objOf [(chars "status", .str (chars "error")),
          (chars "raw_mail", .str (chars "SenderEmail: real@x.y\nContent: hi")),
          (chars "sender", .str (chars "real@x.y")),
          (chars "summary", .str (chars "s"))])) ∧
    getJ (objOf [(chars "status", .str (chars "error")),
        (chars "raw_mail", .str (chars "SenderEmail: real@x.y\nContent: hi")),
        (chars "sender", .str (chars "real@x.y")),
        (chars "summary", .str (chars "s"))]) (chars "status")
      = some (.str (chars "error")) :=
  ⟨rfl, rfl, rfl⟩

/-- C1 amended: one `Worker.run` emits exactly one TaskResult; when an
exception escapes the task, the single result has status `error` and
message equal to the exception's string rendering; and, provided the
intent-engine record does not itself bind the key `status`, a result
with status `error` arises on no other path of the four routed tasks. -/
theorem C1_worker_single_result_amended :
    (∀ env task, (worker_emissions env task).length = 1) ∧
    (∀ env task e, run_async env task = .error e →
      worker_run env task
        = some (objOf [(chars "status", .str (chars "error")), (chars "msg", .str e)])) ∧
    (∀ env task d,
      knownTask task = true →
      (∀ fs, generate_summary_and_reply env.ollamaSummary = .obj fs →
        hasKey fs (chars "status") = false) →
      (∀ fs, decide_action env.ollamaDecide = .obj fs →
        hasKey fs (chars "status") = false) →
      run_async env task = .ok (some d) →
      ∃ st, getJ d (chars "status") = some (.str st) ∧ st ≠ chars "error") := by
  refine ⟨fun env task => rfl, fun env task e h => ?_, fun env task d hk h1 h2 hrun => ?_⟩
  · rw [worker_run_eq, h]
  · simp only [knownTask, Bool.or_eq_true] at hk
    rcases hk with ((ha | hb) | hc) | hd
    · -- analyze_last_mail
      rw [eq_of_beq ha] at hrun
      rw [run_async_analyze] at hrun
      cases hs : env.sessionInit with
      | error e => rw [hs] at hrun; exact absurd hrun (by simp)
      | ok u =>
        rw [hs] at hrun
        cases hm : env.getLatestEmail with
        | error e => rw [hm] at hrun; exact absurd hrun (by simp)
        | ok raw =>
          rw [hm] at hrun
          dsimp only at hrun
          cases hmb : mergeBase [(chars "status", .str (chars "success")),
              (chars "raw_mail", .str raw),
              (chars "sender", optStrJ (extractSender raw))]
              (generate_summary_and_reply env.ollamaSummary) with
          | error e =>
            rw [hmb] at hrun
            exact absurd hrun (by simp [Except.map])
          | ok o =>
            rw [hmb] at hrun
            simp only [Except.map, Except.ok.injEq, Option.some.injEq] at hrun
            obtain ⟨fs, hai, ho⟩ := mergeBase_ok hmb
            refine ⟨chars "success", ?_, by decide⟩
            rw [← hrun, ho, getJ_pyUpdate_of_not_has _ fs _ (h1 fs hai)]
            rfl
    · -- process_command
      rw [eq_of_beq hb] at hrun
      rw [run_async_process] at hrun
      cases hs : env.sessionInit with
      | error e => rw [hs] at hrun; exact absurd hrun (by simp)
      | ok u =>
        rw [hs] at hrun
        cases had : decide_action env.ollamaDecide with
        | obj fs =>
          rw [had] at hrun
          dsimp only at hrun
          by_cases ht : pyTruthyOpt (getJ fs (chars "target_name")) = true
          · rw [if_pos ht] at hrun
            cases hft : env.findEmailTool ((getJ fs (chars "target_name")).getD .null) with
            | error e => rw [hft] at hrun; exact absurd hrun (by simp)
            | ok t =>
              rw [hft] at hrun
              dsimp only at hrun
              simp only [Except.ok.injEq, Option.some.injEq] at hrun
              refine ⟨chars "command_processed", ?_, by decide⟩
              rw [← hrun, getJ_pyUpdate_of_not_has _ fs _ (h2 fs had)]
              rfl
          · rw [if_neg ht] at hrun
            dsimp only at hrun
            simp only [Except.ok.injEq, Option.some.injEq] at hrun
            refine ⟨chars "command_processed", ?_, by decide⟩
            rw [← hrun, getJ_pyUpdate_of_not_has _ fs _ (h2 fs had)]
            rfl
        | null => rw [had] at hrun; exact absurd hrun (by simp)
        | bool b => rw [had] at hrun; exact absurd hrun (by simp)
        | int n => rw [had] at hrun; exact absurd hrun (by simp)
        | str s => rw [had] at hrun; exact absurd hrun (by simp)
        | arr es => rw [had] at hrun; exact absurd hrun (by simp)
    · -- send_reply
      rw [eq_of_beq hc] at hrun
      rw [run_async_send] at hrun
      cases hs : env.sessionInit with
      | error e => rw [hs] at hrun; exact absurd hrun (by simp)
      | ok u =>
        rw [hs] at hrun
        cases hst : env.sendEmailTool with
        | error e => rw [hst] at hrun; exact absurd hrun (by simp)
        | ok v =>
          rw [hst] at hrun
          dsimp only at hrun
          simp only [Except.ok.injEq, Option.some.injEq] at hrun
          exact ⟨chars "sent", by rw [← hrun]; rfl, by decide⟩
    · -- add_calendar
      rw [eq_of_beq hd] at hrun
      rw [run_async_cal] at hrun
      cases hs : env.sessionInit with
      | error e => rw [hs] at hrun; exact absurd hrun (by simp)
      | ok u =>
        rw [hs] at hrun
        cases hst : env.scheduleTool with
        | error e => rw [hst] at hrun; exact absurd hrun (by simp)
        | ok msg =>
          rw [hst] at hrun
          dsimp only at hrun
          simp only [Except.ok.injEq, Option.some.injEq] at hrun
          exact ⟨chars "calendar_added", by rw [← hrun]; rfl, by decide⟩

/-- C1 witness: a well-behaved analyze run, with the no-collision
hypotheses discharged at the concrete engine outputs. -/
theorem C1_worker_single_result_witness :
    ∃ st,
      getJ (objOf [(chars "status", .str (chars "success")),
        (chars "raw_mail", .str (chars "SenderEmail: a@x.y\nContent: hi")),
        (chars "sender", .str (chars "a@x.y")),
        (chars "summary", .str (chars "s")), (chars "draft_reply", .str (chars "d")),
        (chars "detected_date", .null), (chars "meeting_title", .str (chars "T"))])
        (chars "status") = some (.str st) ∧ st ≠ chars "error" :=
  C1_worker_single_result_amended.2.2 envHappy (chars "analyze_last_mail")
    (objOf [(chars "status", .str (chars "success")),
      (chars "raw_mail", .str (chars "SenderEmail: a@x.y\nContent: hi")),
      (chars "sender", .str (chars "a@x.y")),
      (chars "summary", .str (chars "s")), (chars "draft_reply", .str (chars "d")),
      (chars "detected_date", .null), (chars "meeting_title", .str (chars "T"))])
    rfl
    (fun fs h => by
      rw [show generate_summary_and_reply envHappy.ollamaSummary =
        JValue.obj (objOf [(chars "summary", .str (chars "s")),
          (chars "draft_reply", .str (chars "d")),
          (chars "detected_date", .null),
          (chars "meeting_title", .str (chars "T"))]) from rfl] at h
      injection h with h2
      subst h2
      rfl)
    (fun fs h => by
      rw [show decide_action envHappy.ollamaDecide =
        JValue.obj (objOf [(chars "target_name", .null),
          (chars "draft_text", .str (chars "Sistem hatası.")),
          (chars "extracted_date", .null),
          (chars "meeting_title", .str (chars "Hata"))]) from rfl] at h
      injection h with h2
      subst h2
      rfl)
    rfl

/-- C6 counterexample: a `process_command` run in which the engine yields
a non-null `target_name` and the resolver answers the not-found sentinel,
yet the emitted result has status `error` and a non-null `found_email`,
because the model record itself rebinds those keys. -/
theorem C6_counterexample_status_collision :
    decide_action envC6x.ollamaDecide
      = .obj (objOf [(chars "target_name", .str (chars "Ali")),
          (chars "status", .str (chars "error")),
          (chars "found_email", .str (chars "spoof"))]) ∧
    envC6x.findEmailTool (.str (chars "Ali")) = .ok (chars "BULUNAMADI") ∧
    containsL (chars "BULUNAMADI") ['@'] = false ∧
    worker_run envC6x (chars "process_command")
      = some (objOf [(chars "status", .str (chars "error")),
          (chars "found_email", .str (chars "spoof")),
          (chars "target_name", .str (chars "Ali"))]) :=
  ⟨rfl, rfl, rfl, rfl⟩

/-- C6 amended: provided the intent-engine record does not itself bind
`status` or `found_email`, a `process_command` run whose decided target
is non-null and whose resolver reply lacks `@` emits `found_email = null`
with status `command_processed`; `found_email` is non-null only when the
resolver's reply contains `@`; and a null `target_name` means the
resolver's behaviour cannot influence the result. -/
theorem C6_process_command_amended :
    ∀ (env : WEnv) (fs : JObj),
      env.sessionInit = .ok () →
      decide_action env.ollamaDecide = .obj fs →
      hasKey fs (chars "status") = false →
      hasKey fs (chars "found_email") = false →
      ((∀ v reply, getJ fs (chars "target_name") = some v → v ≠ .null →
          env.findEmailTool ((getJ fs (chars "target_name")).getD .null) = .ok reply →
          containsL reply ['@'] = false →
          ∃ d, worker_run env (chars "process_command") = some d ∧
            getJ d (chars "found_email") = some .null ∧
            getJ d (chars "status") = some (.str (chars "command_processed"))) ∧
       (∀ d s, worker_run env (chars "process_command") = some d →
          getJ d (chars "found_email") = some (.str s) → containsL s ['@'] = true) ∧
       (getJ fs (chars "target_name") = some .null →
          ∀ f', worker_run { env with findEmailTool := f' } (chars "process_command")
            = worker_run env (chars "process_command"))) := by
  intro env fs hsess hdec hst hfnd
  refine ⟨fun v reply hv hvnull hft hcon => ?_, fun d s hd hfound => ?_, fun hnull f' => ?_⟩
  · rw [worker_run_eq, run_async_process, hsess]
    dsimp only
    rw [hdec]
    dsimp only
    by_cases htr : pyTruthyOpt (getJ fs (chars "target_name")) = true
    · rw [if_pos htr, hft]
      dsimp only
      rw [hcon]
      refine ⟨_, by dsimp only, ?_, ?_⟩
      · rw [getJ_pyUpdate_of_not_has _ fs _ hfnd]
        rfl
      · rw [getJ_pyUpdate_of_not_has _ fs _ hst]
        rfl
    · rw [if_neg htr]
      refine ⟨_, by dsimp only, ?_, ?_⟩
      · rw [getJ_pyUpdate_of_not_has _ fs _ hfnd]
        rfl
      · rw [getJ_pyUpdate_of_not_has _ fs _ hst]
        rfl
  · rw [worker_run_eq, run_async_process, hsess] at hd
    dsimp only at hd
    rw [hdec] at hd
    dsimp only at hd
    by_cases htr : pyTruthyOpt (getJ fs (chars "target_name")) = true
    · rw [if_pos htr] at hd
      cases hft : env.findEmailTool ((getJ fs (chars "target_name")).getD .null) with
      | error e =>
        rw [hft] at hd
        dsimp only at hd
        simp only [Option.some.injEq] at hd
        subst hd
        have h0 : getJ (objOf [(chars "status", JValue.str (chars "error")),
            (chars "msg", JValue.str e)]) (chars "found_email") = none := rfl
        rw [h0] at hfound
        exact absurd hfound (by simp)
      | ok t =>
        rw [hft] at hd
        dsimp only at hd
        by_cases hc : containsL t ['@'] = true
        · rw [if_pos hc] at hd
          simp only [Option.some.injEq] at hd
          subst hd
          rw [getJ_pyUpdate_of_not_has _ fs _ hfnd] at hfound
          have h1 : JValue.str t = .str s := by
            have h2 : some (JValue.str t) = some (JValue.str s) := by
              rw [← hfound]
              rfl
            exact Option.some.inj h2
          injection h1 with h3
          rw [← h3]
          exact hc
        · rw [if_neg hc] at hd
          simp only [Option.some.injEq] at hd
          subst hd
          rw [getJ_pyUpdate_of_not_has _ fs _ hfnd] at hfound
          have h2 : some JValue.null = some (JValue.str s) := by
            rw [← hfound]
            rfl
          exact absurd (Option.some.inj h2) (by simp)
    · rw [if_neg htr] at hd
      dsimp only at hd
      simp only [Option.some.injEq] at hd
      subst hd
      rw [getJ_pyUpdate_of_not_has _ fs _ hfnd] at hfound
      have h2 : some JValue.null = some (JValue.str s) := by
        rw [← hfound]
        rfl
      exact absurd (Option.some.inj h2) (by simp)
  · rw [worker_run_eq, worker_run_eq, run_async_process, run_async_process]
    rw [hsess, hdec]
    dsimp only
    rw [hnull]
    simp only [pyTruthyOpt, pyTruthy, Bool.false_eq_true, if_false]

/-- C6 witness: a clean decision record with an unresolvable target. -/
theorem C6_process_command_witness :
    ∃ d, worker_run envC6good (chars "process_command") = some d ∧
      getJ d (chars "found_email") = some .null ∧
      getJ d (chars "status") = some (.str (chars "command_processed")) :=
  (C6_process_command_amended envC6good
      (objOf [(chars "target_name", .str (chars "Ali")),
        (chars "draft_text", .str (chars "m")), (chars "extracted_date", .null),
        (chars "meeting_title", .str (chars "T"))]) rfl rfl rfl rfl).1
    (.str (chars "Ali")) (chars "BULUNAMADI") rfl (fun h => JValue.noConfusion h) rfl rfl

/-! ### Equivalence of the interleaved scan with the two-pass algorithm -/

/-- When some row's normalised name contains the query, the interleaved
loop returns the first such row's email whatever its accumulator holds. -/
theorem findLoop_of_firstContainment (score : List Char → List Char → ℚ)
    (target : List Char) :
    ∀ (rows : List (List (List Char))) (e : List Char),
      firstContainment target rows = some e →
      ∀ (best : Option (List Char)) (hs : ℚ), findLoop score target rows best hs = e := by
  intro rows
  induction rows with
  | nil => intro e h best hs; exact absurd h (by simp [firstContainment])
  | cons row rest ih =>
    intro e h best hs
    cases row with
    | nil =>
      simp only [firstContainment, validRow] at h
      simp only [findLoop]
      exact ih e h best hs
    | cons r0 row1 =>
      cases row1 with
      | nil =>
        simp only [firstContainment, validRow] at h
        simp only [findLoop]
        exact ih e h best hs
      | cons r1 rest2 =>
        simp only [firstContainment, validRow] at h
        simp only [findLoop]
        by_cases hc : containsL (stripL (lowerL r0)) target = true
        · rw [if_pos hc] at h
          rw [if_pos hc]
          exact (Option.some.inj h)
        · rw [if_neg hc] at h
          rw [if_neg hc]
          by_cases hcond : score target (stripL (lowerL r0)) > mkRat 3 5 ∧
              score target (stripL (lowerL r0)) > hs
          · rw [if_pos hcond]
            exact ih e h _ _
          · rw [if_neg hcond]
            exact ih e h _ _

/-- When no row's normalised name contains the query, the interleaved
loop computes the first-seen maximal fuzzy score above its accumulator
and the `0.6` threshold. -/
theorem findLoop_of_no_containment (score : List Char → List Char → ℚ)
    (target : List Char) :
    ∀ (rows : List (List (List Char))),
      firstContainment target rows = none →
      ∀ (best : Option (List Char)) (hs : ℚ),
        findLoop score target rows best hs =
          if maxScore (rowScores score target rows) > mkRat 3 5 ∧
              maxScore (rowScores score target rows) > hs
          then (firstArgmax (maxScore (rowScores score target rows))
              (rowScores score target rows)).getD (chars "BULUNAMADI")
          else best.getD (chars "BULUNAMADI") := by
  intro rows
  induction rows with
  | nil =>
    intro _ best hs
    have hm : maxScore (rowScores score target []) = 0 := rfl
    rw [hm]
    rw [if_neg (fun hh => absurd hh.1 (by decide))]
    cases best with
    | none => rfl
    | some e => rfl
  | cons row rest ih =>
    intro h best hs
    cases row with
    | nil =>
      simp only [firstContainment, validRow] at h
      simp only [findLoop, rowScores, List.filterMap_cons, validRow]
      exact ih h best hs
    | cons r0 row1 =>
      cases row1 with
      | nil =>
        simp only [firstContainment, validRow] at h
        simp only [findLoop, rowScores, List.filterMap_cons, validRow]
        exact ih h best hs
      | cons r1 rest2 =>
        simp only [firstContainment, validRow] at h
        by_cases hc : containsL (stripL (lowerL r0)) target = true
        · rw [if_pos hc] at h
          exact absurd h (by simp)
        · rw [if_neg hc] at h
          have hrsc : rowScores score target ((r0 :: r1 :: rest2) :: rest)
              = (stripL r1, score target (stripL (lowerL r0))) :: rowScores score target rest :=
            rfl
          rw [hrsc]
          have hfl : findLoop score target ((r0 :: r1 :: rest2) :: rest) best hs
              = if score target (stripL (lowerL r0)) > mkRat 3 5 ∧
                    score target (stripL (lowerL r0)) > hs
                then findLoop score target rest (some (stripL r1))
                    (score target (stripL (lowerL r0)))
                else findLoop score target rest best hs := by
            simp only [findLoop]
            rw [if_neg hc]
          rw [hfl]
          have hexp : maxScore ((stripL r1, score target (stripL (lowerL r0))) ::
              rowScores score target rest)
              = max (score target (stripL (lowerL r0)))
                  (maxScore (rowScores score target rest)) := rfl
          rw [hexp]
          by_cases hcond2 : score target (stripL (lowerL r0)) > mkRat 3 5 ∧
              score target (stripL (lowerL r0)) > hs
          · rw [if_pos hcond2, ih h (some (stripL r1)) (score target (stripL (lowerL r0)))]
            rcases le_or_lt (score target (stripL (lowerL r0)))
                (maxScore (rowScores score target rest)) with hle | hlt
            · rcases lt_or_eq_of_le hle with hlt2 | heq
              · rw [if_pos (show maxScore (rowScores score target rest) > mkRat 3 5 ∧
                    maxScore (rowScores score target rest) > score target (stripL (lowerL r0)) from
                    ⟨lt_trans hcond2.1 hlt2, hlt2⟩)]
                rw [max_eq_right hle]
                rw [if_pos (show maxScore (rowScores score target rest) > mkRat 3 5 ∧
                    maxScore (rowScores score target rest) > hs from
                    ⟨lt_trans hcond2.1 hlt2, lt_trans hcond2.2 hlt2⟩)]
                simp only [firstArgmax]
                rw [if_neg (show ¬ score target (stripL (lowerL r0)) =
                    maxScore (rowScores score target rest) from ne_of_lt hlt2)]
              · rw [if_neg (show ¬ (maxScore (rowScores score target rest) > mkRat 3 5 ∧
                    maxScore (rowScores score target rest) > score target (stripL (lowerL r0))) from by
                      intro hh
                      rw [← heq] at hh
                      exact absurd hh.2 (lt_irrefl _))]
                rw [max_eq_right hle]
                rw [if_pos (show maxScore (rowScores score target rest) > mkRat 3 5 ∧
                    maxScore (rowScores score target rest) > hs from
                    ⟨heq ▸ hcond2.1, heq ▸ hcond2.2⟩)]
                simp only [firstArgmax]
                rw [if_pos heq]
            · rw [if_neg (show ¬ (maxScore (rowScores score target rest) > mkRat 3 5 ∧
                  maxScore (rowScores score target rest) > score target (stripL (lowerL r0))) from by
                    intro hh
                    exact absurd hh.2 (lt_asymm hlt))]
              rw [max_eq_left (le_of_lt hlt)]
              rw [if_pos hcond2]
              simp [firstArgmax]
          · rw [if_neg hcond2, ih h best hs]
            rcases le_or_lt (score target (stripL (lowerL r0)))
                (maxScore (rowScores score target rest)) with hle | hlt
            · rw [max_eq_right hle]
              by_cases hcond3 : maxScore (rowScores score target rest) > mkRat 3 5 ∧
                  maxScore (rowScores score target rest) > hs
              · rw [if_pos hcond3, if_pos hcond3]
                simp only [firstArgmax]
                rw [if_neg (show ¬ score target (stripL (lowerL r0)) =
                    maxScore (rowScores score target rest) from by
                      intro heq
                      exact hcond2 ⟨heq ▸ hcond3.1, heq ▸ hcond3.2⟩)]
              · rw [if_neg hcond3, if_neg hcond3]
            · rw [max_eq_left (le_of_lt hlt)]
              rw [if_neg (show ¬ (maxScore (rowScores score target rest) > mkRat 3 5 ∧
                  maxScore (rowScores score target rest) > hs) from by
                    intro hh
                    exact hcond2 ⟨lt_trans hh.1 hlt, lt_trans hh.2 hlt⟩)]
              rw [if_neg hcond2]

/-- Unfolding equation of `twoPassFind`. -/
theorem twoPass_eq (score : List Char → List Char → ℚ) (target : List Char)
    (rows : List (List (List Char))) :
    twoPassFind score target rows =
      (match firstContainment target rows with
       | some e => e
       | none =>
         if maxScore (rowScores score target rows) > mkRat 3 5
         then (firstArgmax (maxScore (rowScores score target rows))
             (rowScores score target rows)).getD (chars "BULUNAMADI")
         else chars "BULUNAMADI") := rfl

set_option maxRecDepth 8000 in
set_option maxHeartbeats 1000000 in
/-- C3: on every table the interleaved single loop of `find_email` agrees
with the specification's two-pass algorithm (containment pass first, then
the maximal similarity above `0.6`, ties keeping the first-seen row), and
the spec's concrete examples hold. -/
theorem C3_find_email_is_two_pass :
    (∀ id rows name, 2 ≤ rows.length →
      find_email (some id) (.ok rows) name
        = twoPassFind ratioQ (stripL (lowerL name)) (rows.drop 1)) ∧
    find_email (some (chars "s"))
      (.ok [[chars "İsim Soyisim", chars "E-Posta Adresi"],
        [chars "Engin Vardar", chars "engin@x.com"],
        [chars "Ayşe Yılmaz", chars "ayse@x.com"],
        [chars "Mehmet Demir", chars "mehmet@x.com"]]) (chars "Engin")
      = chars "engin@x.com" ∧
    find_email (some (chars "s"))
      (.ok [[chars "İsim Soyisim", chars "E-Posta Adresi"],
        [chars "Engin Vardar", chars "engin@x.com"],
        [chars "Ayşe Yılmaz", chars "ayse@x.com"],
        [chars "Mehmet Demir", chars "mehmet@x.com"]]) (chars "xyzzyzzz")
      = chars "BULUNAMADI" := by
  refine ⟨fun id rows name h2 => ?_, rfl, rfl⟩
  have hlt : ¬ rows.length < 2 := not_lt.mpr h2
  simp only [find_email]
  rw [if_neg hlt]
  cases hfc : firstContainment (stripL (lowerL name)) (rows.drop 1) with
  | some e =>
    rw [findLoop_of_firstContainment ratioQ _ _ e hfc none 0, twoPass_eq, hfc]
  | none =>
    rw [findLoop_of_no_containment ratioQ _ _ hfc none 0, twoPass_eq, hfc]
    by_cases hm : maxScore (rowScores ratioQ (stripL (lowerL name)) (rows.drop 1)) > mkRat 3 5
    · rw [if_pos ⟨hm, lt_trans (show (0:ℚ) < mkRat 3 5 by decide) hm⟩, if_pos hm]
    · rw [if_neg (fun hh => hm hh.1), if_neg hm]
      rfl

/-- C3 witness: the equivalence applied to the concrete Engin table. -/
theorem C3_find_email_witness :
    find_email (some (chars "s"))
      (.ok [[chars "İsim Soyisim", chars "E-Posta Adresi"],
        [chars "Engin Vardar", chars "engin@x.com"]]) (chars "Engin")
      = twoPassFind ratioQ (stripL (lowerL (chars "Engin")))
          ([[chars "İsim Soyisim", chars "E-Posta Adresi"],
            [chars "Engin Vardar", chars "engin@x.com"]].drop 1) :=
  C3_find_email_is_two_pass.1 (chars "s")
    [[chars "İsim Soyisim", chars "E-Posta Adresi"],
      [chars "Engin Vardar", chars "engin@x.com"]] (chars "Engin") (by decide)

/-! ### The sanitizer's failure behaviour (C5) -/

/-- Unfolding equation of `cleanAndParse`. -/
theorem cleanAndParse_eq (s : List Char) :
    cleanAndParse s =
      (match jsonLoads s with
       | some v => some v
       | none =>
         match fenceExtract s with
         | none => none
         | some t2 => jsonLoads (stripL t2)) := rfl

/-- C5: the sanitizer is a total function (it never raises), and it
returns `None` exactly when the direct parse fails and the recovered
fenced interior (when one is selected) also fails to parse after
trimming. -/
theorem C5_sanitizer_none_iff_unrecoverable :
    ∀ s, cleanAndParse s = none ↔
      (jsonLoads s = none ∧ ∀ t, fenceExtract s = some t → jsonLoads (stripL t) = none) := by
  intro s
  constructor
  · intro h
    cases hj : jsonLoads s with
    | some v =>
      rw [cleanAndParse_eq, hj] at h
      exact absurd h (by simp)
    | none =>
      refine ⟨rfl, fun t ht => ?_⟩
      rw [cleanAndParse_eq, hj] at h
      dsimp only at h
      rw [ht] at h
      exact h
  · rintro ⟨hj, hf⟩
    rw [cleanAndParse_eq, hj]
    dsimp only
    cases hfe : fenceExtract s with
    | none => rfl
    | some t => exact hf t hfe

/-- C5 witness: a concrete unrecoverable input. -/
theorem C5_sanitizer_witness :
    cleanAndParse (chars "```json\nnot json\n```") = none ∧
    jsonLoads (chars "```json\nnot json\n```") = none :=
  ⟨(C5_sanitizer_none_iff_unrecoverable (chars "```json\nnot json\n```")).mpr
    ⟨rfl, fun t ht => by
      rw [show fenceExtract (chars "```json\nnot json\n```")
        = some (chars "\nnot json\n") from rfl] at ht
      cases ht
      rfl⟩, rfl⟩

/-! ### Decimal and hexadecimal digit facts -/

/-- `hexVal` inverts `hexDigitChar` below 16. -/
theorem hexVal_hexDigitChar_fin : ∀ n : Fin 16, hexVal (hexDigitChar n.val) = some n.val := by
  decide

/-- `hexVal` inverts `hexDigitChar`. -/
theorem hexVal_hexDigitChar (n : Nat) (h : n < 16) : hexVal (hexDigitChar n) = some n :=
  hexVal_hexDigitChar_fin ⟨n, h⟩

/-- Digit characters are decimal digits. -/
theorem hexDigitChar_isDigit_fin : ∀ n : Fin 10, (hexDigitChar n.val).isDigit = true := by
  decide

/-- `digitVal` inverts `hexDigitChar` below 10. -/
theorem digitVal_hexDigitChar_fin : ∀ n : Fin 10, digitVal (hexDigitChar n.val) = n.val := by
  decide

/-- Digit characters are not `'0'` unless they encode zero. -/
theorem hexDigitChar_eq_zero_fin : ∀ n : Fin 10, (hexDigitChar n.val == '0') = decide (n.val = 0) := by
  decide

/-- Fuel does not matter to `natDigitsGo` once it exceeds the argument. -/
theorem natDigitsGo_fuel : ∀ (f1 : Nat), ∀ f2 n, n < f1 → n < f2 →
    natDigitsGo f1 n = natDigitsGo f2 n := by
  intro f1
  induction f1 with
  | zero => intro f2 n h1 _; exact absurd h1 (Nat.not_lt_zero n)
  | succ g ih =>
    intro f2 n h1 h2
    cases f2 with
    | zero => exact absurd h2 (Nat.not_lt_zero n)
    | succ h =>
      simp only [natDigitsGo]
      by_cases hn : n < 10
      · rw [if_pos hn, if_pos hn]
      · rw [if_neg hn, if_neg hn]
        have hd : n / 10 < n := Nat.div_lt_self (by omega) (by omega)
        rw [ih g (n / 10) (by omega) (by omega)]
        rw [ih h (n / 10) (by omega) (by omega)]

/-- The defining recurrence of `natDigits`. -/
theorem natDigits_rec (n : Nat) :
    natDigits n = if n < 10 then [hexDigitChar n]
      else natDigits (n / 10) ++ [hexDigitChar (n % 10)] := by
  show natDigitsGo (n + 1) n = _
  simp only [natDigitsGo]
  by_cases hn : n < 10
  · rw [if_pos hn, if_pos hn]
  · rw [if_neg hn, if_neg hn]
    rw [natDigitsGo_fuel n (n / 10 + 1) (n / 10)
      (Nat.div_lt_self (by omega) (by omega)) (Nat.lt_succ_self _)]
    rfl

/-- Every character printed for a natural number is a decimal digit. -/
theorem natDigits_all_digits (n : Nat) : ∀ c ∈ natDigits n, c.isDigit = true := by
  induction n using Nat.strong_induction_on with
  | _ n ih =>
    rw [natDigits_rec]
    by_cases hn : n < 10
    · rw [if_pos hn]
      intro c hc
      rw [List.mem_singleton] at hc
      subst hc
      exact hexDigitChar_isDigit_fin ⟨n, hn⟩
    · rw [if_neg hn]
      intro c hc
      rw [List.mem_append] at hc
      rcases hc with hc | hc
      · exact ih (n / 10) (Nat.div_lt_self (by omega) (by omega)) c hc
      · rw [List.mem_singleton] at hc
        subst hc
        exact hexDigitChar_isDigit_fin ⟨n % 10, by omega⟩

/-- The digit print of a natural number is never empty. -/
theorem natDigits_ne_nil (n : Nat) : natDigits n ≠ [] := by
  rw [natDigits_rec]
  by_cases hn : n < 10
  · rw [if_pos hn]; simp
  · rw [if_neg hn]; simp

/-- A nonzero number never prints with a leading `'0'`. -/
theorem natDigits_head_ne_zero (n : Nat) (hn : n ≠ 0) :
    ∀ d ds, natDigits n = d :: ds → (d == '0') = false := by
  induction n using Nat.strong_induction_on with
  | _ n ih =>
    intro d ds hd
    rw [natDigits_rec] at hd
    by_cases h10 : n < 10
    · rw [if_pos h10] at hd
      cases hd
      rw [hexDigitChar_eq_zero_fin ⟨n, h10⟩]
      simp [hn]
    · rw [if_neg h10] at hd
      have hne := natDigits_ne_nil (n / 10)
      cases hq : natDigits (n / 10) with
      | nil => exact absurd hq hne
      | cons d0 ds0 =>
        rw [hq] at hd
        rw [List.cons_append] at hd
        injection hd with h1 h2
        subst h1
        exact ih (n / 10) (Nat.div_lt_self (by omega) (by omega)) (by omega) d0 ds0 hq

/-- Folding the digit print recovers the number. -/
theorem digitsVal_natDigits (n : Nat) : digitsVal (natDigits n) = n := by
  induction n using Nat.strong_induction_on with
  | _ n ih =>
    rw [natDigits_rec]
    by_cases hn : n < 10
    · rw [if_pos hn]
      show 10 * 0 + digitVal (hexDigitChar n) = n
      rw [Nat.mul_zero, Nat.zero_add]
      exact digitVal_hexDigitChar_fin ⟨n, hn⟩
    · rw [if_neg hn]
      show (natDigits (n / 10) ++ [hexDigitChar (n % 10)]).foldl
        (fun a c => 10 * a + digitVal c) 0 = n
      rw [List.foldl_append]
      show 10 * ((natDigits (n / 10)).foldl (fun a c => 10 * a + digitVal c) 0)
        + digitVal (hexDigitChar (n % 10)) = n
      rw [show (natDigits (n / 10)).foldl (fun a c => 10 * a + digitVal c) 0 = n / 10 from
        ih (n / 10) (Nat.div_lt_self (by omega) (by omega))]
      rw [digitVal_hexDigitChar_fin ⟨n % 10, by omega⟩]
      show 10 * (n / 10) + n % 10 = n
      omega

/-- `takeWhile` keeps exactly a satisfying block that ends before a
non-satisfying head. -/
theorem takeWhile_block (p : Char → Bool) :
    ∀ (l r : List Char), (∀ c ∈ l, p c = true) →
      (∀ c ts, r = c :: ts → p c = false) →
      (l ++ r).takeWhile p = l := by
  intro l
  induction l with
  | nil =>
    intro r _ hr
    cases r with
    | nil => rfl
    | cons c t =>
      rw [List.nil_append, List.takeWhile_cons, hr c t rfl]
      rfl
  | cons a l2 ih =>
    intro r hl hr
    rw [List.cons_append, List.takeWhile_cons, hl a (List.mem_cons_self a l2)]
    rw [ih r (fun c hc => hl c (List.mem_cons_of_mem a hc)) hr]
    rfl

/-- A true `headNotDigit` means any head is a non-digit. -/
theorem headNotDigit_elim (r : List Char) (h : headNotDigit r = true) :
    ∀ c ts, r = c :: ts → c.isDigit = false := by
  intro c ts hr
  subst hr
  simpa [headNotDigit, Bool.not_eq_true'] using h

/-- Unfolding equation of `parseNatTok`. -/
theorem parseNatTok_eq (s : List Char) :
    parseNatTok s =
      (match s.takeWhile Char.isDigit with
       | [] => none
       | d :: ds =>
         if d == '0' && !ds.isEmpty then none
         else some (digitsVal (d :: ds), s.drop (d :: ds).length)) := rfl

/-- Parsing the printed digits of a natural number. -/
theorem parseNatTok_natDigits (n : Nat) (rest : List Char) (h : headNotDigit rest = true) :
    parseNatTok (natDigits n ++ rest) = some (n, rest) := by
  have htw : (natDigits n ++ rest).takeWhile Char.isDigit = natDigits n :=
    takeWhile_block Char.isDigit (natDigits n) rest (natDigits_all_digits n)
      (headNotDigit_elim rest h)
  cases hq : natDigits n with
  | nil => exact absurd hq (natDigits_ne_nil n)
  | cons d ds =>
    rw [parseNatTok_eq]
    rw [hq] at htw
    rw [htw]
    dsimp only
    have hz : (d == '0' && !ds.isEmpty) = false := by
      by_cases h0 : (d == '0') = true
      · have hn0 : n = 0 := by
          by_contra hn0
          exact absurd h0 (by rw [natDigits_head_ne_zero n hn0 d ds hq]; simp)
        subst hn0
        have h00 : natDigits 0 = ['0'] := rfl
        rw [h00] at hq
        injection hq with h1 h2
        rw [← h2]
        simp
      · simp only [Bool.not_eq_true] at h0
        rw [h0]
        rfl
    rw [hz]
    simp only [Bool.false_eq_true, if_false]
    rw [← hq, digitsVal_natDigits n, List.drop_left]

/-- A decimal digit never `==`-matches a non-digit character. -/
theorem isDigit_beq_false (c d : Char) (hc : c.isDigit = true) (hd : d.isDigit = false) :
    (c == d) = false := by
  cases h : c == d with
  | true =>
    have := eq_of_beq h
    subst this
    rw [hc] at hd
    exact absurd hd (by simp)
  | false => rfl

/-- Parsing the printed form of an integer. -/
theorem parseIntTok_intChars (i : Int) (rest : List Char) (h : headNotDigit rest = true) :
    parseIntTok (intChars i ++ rest) = some (i, rest) := by
  cases i with
  | ofNat n =>
    show parseIntTok (natDigits n ++ rest) = _
    cases hq : natDigits n with
    | nil => exact absurd hq (natDigits_ne_nil n)
    | cons d ds =>
      have hdd : d.isDigit = true := by
        apply natDigits_all_digits n
        rw [hq]
        exact List.mem_cons_self d ds
      rw [List.cons_append]
      simp only [parseIntTok]
      rw [isDigit_beq_false d '-' hdd (by decide)]
      simp only [Bool.false_eq_true, if_false]
      rw [← List.cons_append, ← hq, parseNatTok_natDigits n rest h]
      rfl
  | negSucc n =>
    show parseIntTok (('-' :: natDigits (n + 1)) ++ rest) = _
    rw [List.cons_append]
    simp only [parseIntTok]
    rw [show (('-' : Char) == '-') = true from rfl]
    simp only [if_true]
    rw [parseNatTok_natDigits (n + 1) rest h]
    simp only [Option.map_some']
    have hneg : (-(↑(n + 1) : Int)) = Int.negSucc n := by
      rw [Int.negSucc_eq]
      push_cast
      ring
    rw [hneg]

/-! ### String-escape roundtrip -/

/-- Unfolding equation of `parseStrBody` on a cons cell. -/
theorem parseStrBody_cons (c : Char) (r : List Char) :
    parseStrBody (c :: r) =
      (if c == '"' then some ([], r)
       else if c == '\\' then parseEsc r
       else if c.toNat < 0x20 then none
       else (parseStrBody r).map (fun p => (c :: p.1, p.2))) := rfl

/-- Parsing an escaped string body up to the closing quote recovers the
original characters. -/
theorem parseStrBody_escStr :
    ∀ (s rest : List Char), wfStr s = true →
      parseStrBody (escStr s ++ '"' :: rest) = some (s, rest) := by
  intro s
  induction s with
  | nil => intro rest _; rfl
  | cons c t ih =>
    intro rest hwf
    simp only [wfStr, List.all_cons, Bool.and_eq_true] at hwf
    have hwc : c.toNat < 0x10000 := of_decide_eq_true hwf.1
    have iht := ih rest hwf.2
    show parseStrBody ((escChar c ++ escStr t) ++ '"' :: rest) = some (c :: t, rest)
    rw [List.append_assoc]
    by_cases h1 : (c == '"') = true
    · rw [eq_of_beq h1,
        show parseStrBody (escChar '"' ++ (escStr t ++ '"' :: rest))
          = (parseStrBody (escStr t ++ '"' :: rest)).map (fun p => ('"' :: p.1, p.2)) from rfl,
        iht]
      rfl
    simp only [Bool.not_eq_true] at h1
    by_cases h2 : (c == '\\') = true
    · rw [eq_of_beq h2,
        show parseStrBody (escChar '\\' ++ (escStr t ++ '"' :: rest))
          = (parseStrBody (escStr t ++ '"' :: rest)).map (fun p => ('\\' :: p.1, p.2)) from rfl,
        iht]
      rfl
    simp only [Bool.not_eq_true] at h2
    by_cases h3 : (c == '\n') = true
    · rw [eq_of_beq h3,
        show parseStrBody (escChar '\n' ++ (escStr t ++ '"' :: rest))
          = (parseStrBody (escStr t ++ '"' :: rest)).map (fun p => ('\n' :: p.1, p.2)) from rfl,
        iht]
      rfl
    simp only [Bool.not_eq_true] at h3
    by_cases h4 : (c == '\t') = true
    · rw [eq_of_beq h4,
        show parseStrBody (escChar '\t' ++ (escStr t ++ '"' :: rest))
          = (parseStrBody (escStr t ++ '"' :: rest)).map (fun p => ('\t' :: p.1, p.2)) from rfl,
        iht]
      rfl
    simp only [Bool.not_eq_true] at h4
    by_cases h5 : (c == '\r') = true
    · rw [eq_of_beq h5,
        show parseStrBody (escChar '\r' ++ (escStr t ++ '"' :: rest))
          = (parseStrBody (escStr t ++ '"' :: rest)).map (fun p => ('\r' :: p.1, p.2)) from rfl,
        iht]
      rfl
    simp only [Bool.not_eq_true] at h5
    by_cases h6 : (c == '\x08') = true
    · rw [eq_of_beq h6,
        show parseStrBody (escChar '\x08' ++ (escStr t ++ '"' :: rest))
          = (parseStrBody (escStr t ++ '"' :: rest)).map (fun p => ('\x08' :: p.1, p.2)) from rfl,
        iht]
      rfl
    simp only [Bool.not_eq_true] at h6
    by_cases h7 : (c == '\x0c') = true
    · rw [eq_of_beq h7,
        show parseStrBody (escChar '\x0c' ++ (escStr t ++ '"' :: rest))
          = (parseStrBody (escStr t ++ '"' :: rest)).map (fun p => ('\x0c' :: p.1, p.2)) from rfl,
        iht]
      rfl
    simp only [Bool.not_eq_true] at h7
    by_cases h8 : 0x20 ≤ c.toNat ∧ c.toNat ≤ 0x7e
    · have hcond : (0x20 ≤ c.toNat && c.toNat ≤ 0x7e) = true := by
        rw [decide_eq_true h8.1, decide_eq_true h8.2]
        rfl
      have hesc : escChar c = [c] := by
        simp only [escChar, h1, h2, h3, h4, h5, h6, h7, Bool.false_eq_true, if_false]
        rw [if_pos hcond]
      rw [hesc, List.singleton_append, parseStrBody_cons, h1, h2]
      simp only [Bool.false_eq_true, if_false]
      rw [if_neg (by omega : ¬ c.toNat < 0x20), iht]
      rfl
    · have hesc : escChar c = ['\\', 'u', hexDigitChar (c.toNat / 4096 % 16),
          hexDigitChar (c.toNat / 256 % 16), hexDigitChar (c.toNat / 16 % 16),
          hexDigitChar (c.toNat % 16)] := by
        simp only [escChar, h1, h2, h3, h4, h5, h6, h7, Bool.false_eq_true, if_false]
        rw [if_neg]
        intro hcond
        simp only [Bool.and_eq_true, decide_eq_true_eq] at hcond
        exact h8 hcond
      rw [hesc]
      rw [show (['\\', 'u', hexDigitChar (c.toNat / 4096 % 16), hexDigitChar (c.toNat / 256 % 16),
            hexDigitChar (c.toNat / 16 % 16), hexDigitChar (c.toNat % 16)] : List Char)
            ++ (escStr t ++ '"' :: rest)
          = '\\' :: 'u' :: hexDigitChar (c.toNat / 4096 % 16) :: hexDigitChar (c.toNat / 256 % 16)
            :: hexDigitChar (c.toNat / 16 % 16) :: hexDigitChar (c.toNat % 16)
            :: (escStr t ++ '"' :: rest) from rfl]
      rw [show ∀ (A B C D : Char) (X : List Char),
            parseStrBody ('\\' :: 'u' :: A :: B :: C :: D :: X)
          = (match hexVal A, hexVal B, hexVal C, hexVal D with
             | some a, some b, some cc, some dd =>
               if 4096 * a + 256 * b + 16 * cc + dd < 0xd800
                   || 0xe000 ≤ 4096 * a + 256 * b + 16 * cc + dd then
                 (parseStrBody X).map
                   (fun p => (Char.ofNat (4096 * a + 256 * b + 16 * cc + dd) :: p.1, p.2))
               else none
             | _, _, _, _ => none) from fun A B C D X => rfl]
      rw [hexVal_hexDigitChar (c.toNat / 4096 % 16) (by omega),
          hexVal_hexDigitChar (c.toNat / 256 % 16) (by omega),
          hexVal_hexDigitChar (c.toNat / 16 % 16) (by omega),
          hexVal_hexDigitChar (c.toNat % 16) (by omega)]
      dsimp only
      have hcode : 4096 * (c.toNat / 4096 % 16) + 256 * (c.toNat / 256 % 16)
          + 16 * (c.toNat / 16 % 16) + c.toNat % 16 = c.toNat := by omega
      rw [hcode]
      have hv0 : c.toNat < 0xd800 ∨ (0xdfff < c.toNat ∧ c.toNat < 0x110000) := c.valid
      have hguard : (c.toNat < 0xd800 || 0xe000 ≤ c.toNat) = true := by
        rcases hv0 with hv | hv
        · rw [decide_eq_true hv]
          rfl
        · rw [decide_eq_true (show 0xe000 ≤ c.toNat by omega)]
          simp
      rw [hguard, if_pos rfl, Char.ofNat_toNat, iht]
      rfl

/-! ### Printer shape facts -/

/-- The printed form of a value is never empty. -/
theorem printV_ne_nil : ∀ v : JValue, printV v ≠ [] := by
  intro v
  cases v with
  | null => exact fun h => nomatch h
  | bool b => cases b with
    | true => exact fun h => nomatch h
    | false => exact fun h => nomatch h
  | int n => cases n with
    | ofNat m => exact natDigits_ne_nil m
    | negSucc m => exact fun h => nomatch h
  | str s => exact fun h => nomatch h
  | arr es => cases es with
    | nil => exact fun h => nomatch h
    | cons v tl => exact fun h => nomatch h
  | obj fs => cases fs with
    | nil => exact fun h => nomatch h
    | cons k v tl => exact fun h => nomatch h

/-- The printed form has positive length. -/
theorem printV_length_pos (v : JValue) : 0 < (printV v).length :=
  List.length_pos.mpr (printV_ne_nil v)

/-- The digit print ends in a digit. -/
theorem natDigits_snoc (n : Nat) : ∃ i c, natDigits n = i ++ [c] ∧ c.isDigit = true := by
  rw [natDigits_rec]
  by_cases hn : n < 10
  · rw [if_pos hn]
    exact ⟨[], hexDigitChar n, rfl, hexDigitChar_isDigit_fin ⟨n, hn⟩⟩
  · rw [if_neg hn]
    exact ⟨natDigits (n / 10), hexDigitChar (n % 10), rfl,
      hexDigitChar_isDigit_fin ⟨n % 10, by omega⟩⟩

/-- Digits are not JSON whitespace. -/
theorem digit_not_ws (c : Char) (h : c.isDigit = true) : jsonWs c = false := by
  simp only [jsonWs]
  rw [isDigit_beq_false c ' ' h (by decide), isDigit_beq_false c '\t' h (by decide),
      isDigit_beq_false c '\n' h (by decide), isDigit_beq_false c '\r' h (by decide)]
  rfl

/-- Digits are not Python `strip` whitespace. -/
theorem digit_not_space (c : Char) (h : c.isDigit = true) : pyIsSpace c = false := by
  simp only [pyIsSpace]
  rw [isDigit_beq_false c ' ' h (by decide), isDigit_beq_false c '\t' h (by decide),
      isDigit_beq_false c '\n' h (by decide), isDigit_beq_false c '\r' h (by decide),
      isDigit_beq_false c '\x0b' h (by decide), isDigit_beq_false c '\x0c' h (by decide)]
  rfl

/-- The first printed character is never whitespace nor a closing
bracket. -/
theorem printV_head_good : ∀ v : JValue, ∃ c ts, printV v = c :: ts ∧
    jsonWs c = false ∧ pyIsSpace c = false ∧ (c == ']') = false ∧ (c == '\x7d') = false := by
  intro v
  cases v with
  | null => exact ⟨'n', chars "ull", rfl, by decide, by decide, by decide, by decide⟩
  | bool b => cases b with
    | true => exact ⟨'t', chars "rue", rfl, by decide, by decide, by decide, by decide⟩
    | false => exact ⟨'f', chars "alse", rfl, by decide, by decide, by decide, by decide⟩
  | int n => cases n with
    | ofNat m =>
      cases hq : natDigits m with
      | nil => exact absurd hq (natDigits_ne_nil m)
      | cons d ds =>
        have hdd : d.isDigit = true := by
          apply natDigits_all_digits m
          rw [hq]
          exact List.mem_cons_self d ds
        exact ⟨d, ds, hq, digit_not_ws d hdd, digit_not_space d hdd,
          isDigit_beq_false d ']' hdd (by decide), isDigit_beq_false d '\x7d' hdd (by decide)⟩
    | negSucc m =>
      exact ⟨'-', natDigits (m + 1), rfl, by decide, by decide, by decide, by decide⟩
  | str s =>
    exact ⟨'"', escStr s ++ ['"'], rfl, by decide, by decide, by decide, by decide⟩
  | arr es => cases es with
    | nil => exact ⟨'[', [']'], rfl, by decide, by decide, by decide, by decide⟩
    | cons v tl =>
      exact ⟨'[', (printV v ++ printArrTail tl) ++ [']'], rfl,
        by decide, by decide, by decide, by decide⟩
  | obj fs => cases fs with
    | nil => exact ⟨'\x7b', ['\x7d'], rfl, by decide, by decide, by decide, by decide⟩
    | cons k v tl =>
      exact ⟨'\x7b', (printKV k v ++ printObjTail tl) ++ ['\x7d'], rfl,
        by decide, by decide, by decide, by decide⟩

/-- The last printed character is never Python `strip` whitespace. -/
theorem printV_snoc : ∀ v : JValue, ∃ i c, printV v = i ++ [c] ∧ pyIsSpace c = false := by
  intro v
  cases v with
  | null => exact ⟨chars "nul", 'l', rfl, by decide⟩
  | bool b => cases b with
    | true => exact ⟨chars "tru", 'e', rfl, by decide⟩
    | false => exact ⟨chars "fals", 'e', rfl, by decide⟩
  | int n => cases n with
    | ofNat m =>
      obtain ⟨i, c, hic, hd⟩ := natDigits_snoc m
      exact ⟨i, c, hic, digit_not_space c hd⟩
    | negSucc m =>
      obtain ⟨i, c, hic, hd⟩ := natDigits_snoc (m + 1)
      refine ⟨'-' :: i, c, ?_, digit_not_space c hd⟩
      show '-' :: natDigits (m + 1) = ('-' :: i) ++ [c]
      rw [List.cons_append, hic]
  | str s => exact ⟨'"' :: escStr s, '"', rfl, by decide⟩
  | arr es => cases es with
    | nil => exact ⟨['['], ']', rfl, by decide⟩
    | cons v tl => exact ⟨'[' :: (printV v ++ printArrTail tl), ']', rfl, by decide⟩
  | obj fs => cases fs with
    | nil => exact ⟨['\x7b'], '\x7d', rfl, by decide⟩
    | cons k v tl => exact ⟨'\x7b' :: (printKV k v ++ printObjTail tl), '\x7d', rfl, by decide⟩

/-- `skipWs` leaves a list whose head is not whitespace unchanged. -/
theorem skipWs_head_false (c : Char) (s : List Char) (h : jsonWs c = false) :
    skipWs (c :: s) = c :: s := by
  show (c :: s).dropWhile jsonWs = c :: s
  rw [List.dropWhile_cons, h]
  rfl

/-- `headIs` on a cons cell. -/
theorem headIs_cons (x : Char) (s : List Char) (c : Char) : headIs (x :: s) c = (x == c) := rfl

/-! ### Parser unfolding equations and whitespace absorption -/

/-- Unfolding equation of `parseVal` at positive fuel. -/
theorem parseVal_succ_eq (g : Nat) (s : List Char) :
    parseVal (g + 1) s =
      (match skipWs s with
       | [] => none
       | c :: r =>
         if c == 'n' then
           if startsWithL r (chars "ull") then some (.null, r.drop 3) else none
         else if c == 't' then
           if startsWithL r (chars "rue") then some (.bool true, r.drop 3) else none
         else if c == 'f' then
           if startsWithL r (chars "alse") then some (.bool false, r.drop 4) else none
         else if c == '"' then (parseStrBody r).map (fun p => (JValue.str p.1, p.2))
         else if c == '[' then
           let r2 := skipWs r
           if headIs r2 ']' then some (.arr .nil, r2.tail)
           else (parseElems g r2).map (fun p => (JValue.arr p.1, p.2))
         else if c == '\x7b' then
           let r2 := skipWs r
           if headIs r2 '\x7d' then some (.obj .nil, r2.tail)
           else (parseFields g r2).map (fun p => (JValue.obj p.1, p.2))
         else (parseIntTok (c :: r)).map (fun p => (JValue.int p.1, p.2))) := rfl

/-- Unfolding equation of `parseElems` at positive fuel. -/
theorem parseElems_succ_eq (g : Nat) (s : List Char) :
    parseElems (g + 1) s =
      (match parseVal g s with
       | none => none
       | some (v, r) =>
         let r2 := skipWs r
         if headIs r2 ',' then (parseElems g r2.tail).map (fun p => (JArr.cons v p.1, p.2))
         else if headIs r2 ']' then some (.cons v .nil, r2.tail)
         else none) := rfl

/-- Unfolding equation of `parseFields` at positive fuel. -/
theorem parseFields_succ_eq (g : Nat) (s : List Char) :
    parseFields (g + 1) s =
      (let s1 := skipWs s
       if headIs s1 '"' then
         match parseStrBody s1.tail with
         | none => none
         | some (k, r) =>
           let r2 := skipWs r
           if headIs r2 ':' then
             match parseVal g r2.tail with
             | none => none
             | some (v, r3) =>
               let r4 := skipWs r3
               if headIs r4 ',' then (parseFields g r4.tail).map (fun p => (JObj.cons k v p.1, p.2))
               else if headIs r4 '\x7d' then some (.cons k v .nil, r4.tail)
               else none
           else none
       else none) := rfl

/-- A leading space is absorbed by `parseVal`. -/
theorem parseVal_ws_cons : ∀ (f : Nat) (s : List Char), parseVal f (' ' :: s) = parseVal f s
  | 0, _ => rfl
  | _ + 1, _ => rfl

/-- A leading space is absorbed by `parseElems`. -/
theorem parseElems_ws (f : Nat) (s : List Char) : parseElems f (' ' :: s) = parseElems f s := by
  cases f with
  | zero => rfl
  | succ g => rw [parseElems_succ_eq, parseElems_succ_eq, parseVal_ws_cons]

/-- A leading space is absorbed by `parseFields`. -/
theorem parseFields_ws : ∀ (f : Nat) (s : List Char), parseFields f (' ' :: s) = parseFields f s
  | 0, _ => rfl
  | _ + 1, _ => rfl

/-- `parseVal` after an opening quote. -/
theorem parseVal_quote (g : Nat) (Y : List Char) :
    parseVal (g + 1) ('"' :: Y) = (parseStrBody Y).map (fun p => (JValue.str p.1, p.2)) := rfl

/-- `parseVal` after a minus sign. -/
theorem parseVal_dash (g : Nat) (Y : List Char) :
    parseVal (g + 1) ('-' :: Y)
      = (parseIntTok ('-' :: Y)).map (fun p => (JValue.int p.1, p.2)) := rfl

/-- `parseVal` after an opening bracket. -/
theorem parseVal_lbracket (g : Nat) (Y : List Char) :
    parseVal (g + 1) ('[' :: Y) =
      (if headIs (skipWs Y) ']' then some (JValue.arr .nil, (skipWs Y).tail)
       else (parseElems g (skipWs Y)).map (fun p => (JValue.arr p.1, p.2))) := rfl

/-- `parseVal` after an opening brace. -/
theorem parseVal_lbrace (g : Nat) (Y : List Char) :
    parseVal (g + 1) ('\x7b' :: Y) =
      (if headIs (skipWs Y) '\x7d' then some (JValue.obj .nil, (skipWs Y).tail)
       else (parseFields g (skipWs Y)).map (fun p => (JValue.obj p.1, p.2))) := rfl

/-! ### Printer/parser auxiliary equations -/

/-- `printArrTail` on a cons cell. -/
theorem printArrTail_cons (w : JValue) (tl : JArr) :
    printArrTail (.cons w tl) = ',' :: ' ' :: (printV w ++ printArrTail tl) := rfl

/-- `printObjTail` on a cons cell. -/
theorem printObjTail_cons (k : List Char) (v : JValue) (tl : JObj) :
    printObjTail (.cons k v tl) = ',' :: ' ' :: (printKV k v ++ printObjTail tl) := rfl

/-- `printV` on a nonempty array. -/
theorem printArr_cons_eq (v : JValue) (tl : JArr) :
    printV (.arr (.cons v tl)) = '[' :: ((printV v ++ printArrTail tl) ++ [']']) := rfl

/-- `printV` on a nonempty object. -/
theorem printObj_cons_eq (k : List Char) (v : JValue) (tl : JObj) :
    printV (.obj (.cons k v tl)) = '\x7b' :: ((printKV k v ++ printObjTail tl) ++ ['\x7d']) := rfl

/-- `printKV` written with a leading cons. -/
theorem printKV_eq (k : List Char) (v : JValue) :
    printKV k v = '"' :: (escStr k ++ ('"' :: ':' :: ' ' :: printV v)) := rfl

/-- The remainder after an array element never starts with a digit. -/
theorem headNotDigit_arrTail (tl : JArr) (r : List Char) :
    headNotDigit (printArrTail tl ++ ']' :: r) = true := by
  cases tl with
  | nil => rfl
  | cons w tl2 => rfl

/-- The remainder after an object value never starts with a digit. -/
theorem headNotDigit_objTail (tl : JObj) (r : List Char) :
    headNotDigit (printObjTail tl ++ '\x7d' :: r) = true := by
  cases tl with
  | nil => rfl
  | cons k v tl2 => rfl

/-- Length of a printed array tail. -/
theorem printArrTail_cons_length (w : JValue) (tl : JArr) :
    (printArrTail (.cons w tl)).length = (printV w).length + (printArrTail tl).length + 2 := by
  rw [printArrTail_cons]
  simp only [List.length_cons, List.length_append]

/-- Length of a printed object tail. -/
theorem printObjTail_cons_length (k : List Char) (v : JValue) (tl : JObj) :
    (printObjTail (.cons k v tl)).length
      = (printKV k v).length + (printObjTail tl).length + 2 := by
  rw [printObjTail_cons]
  simp only [List.length_cons, List.length_append]

/-- Length of a printed nonempty array. -/
theorem printArr_cons_length (v : JValue) (tl : JArr) :
    (printV (JValue.arr (.cons v tl))).length
      = (printV v).length + (printArrTail tl).length + 2 := by
  rw [printArr_cons_eq]
  simp only [List.length_cons, List.length_append, List.length_nil]

/-- Length of a printed nonempty object. -/
theorem printObj_cons_length (k : List Char) (v : JValue) (tl : JObj) :
    (printV (JValue.obj (.cons k v tl))).length
      = (printKV k v).length + (printObjTail tl).length + 2 := by
  rw [printObj_cons_eq]
  simp only [List.length_cons, List.length_append, List.length_nil]

/-- `skipWs` leaves a printed value in place. -/
theorem skipWs_printV (v : JValue) (X : List Char) :
    skipWs (printV v ++ X) = printV v ++ X := by
  obtain ⟨c, ts, hv, hws, _, _, _⟩ := printV_head_good v
  rw [hv, List.cons_append, skipWs_head_false c _ hws]

/-- A printed value never starts with `']'`. -/
theorem headIs_printV_rbracket (v : JValue) (X : List Char) :
    headIs (printV v ++ X) ']' = false := by
  obtain ⟨c, ts, hv, _, _, hb, _⟩ := printV_head_good v
  rw [hv, List.cons_append, headIs_cons]
  exact hb

/-- A printed value never starts with a closing brace. -/
theorem headIs_printV_rbrace (v : JValue) (X : List Char) :
    headIs (printV v ++ X) '\x7d' = false := by
  obtain ⟨c, ts, hv, _, _, _, hb⟩ := printV_head_good v
  rw [hv, List.cons_append, headIs_cons]
  exact hb

/-- `skipWs` leaves a printed field in place. -/
theorem skipWs_printKV (k : List Char) (v : JValue) (X : List Char) :
    skipWs (printKV k v ++ X) = printKV k v ++ X := by
  rw [printKV_eq, List.cons_append, skipWs_head_false '"' _ (by decide)]

/-- A printed field never starts with a closing brace. -/
theorem headIs_printKV_rbrace (k : List Char) (v : JValue) (X : List Char) :
    headIs (printKV k v ++ X) '\x7d' = false := by
  rw [printKV_eq, List.cons_append, headIs_cons]
  decide

/-- Well-formedness of a cons array. -/
theorem wfA_cons (v : JValue) (tl : JArr) : wfA (.cons v tl) = (wfV v && wfA tl) := rfl

/-- Well-formedness of a cons object. -/
theorem wfO_cons (k : List Char) (v : JValue) (tl : JObj) :
    wfO (.cons k v tl) = (wfStr k && wfV v && wfO tl && !(hasKey tl k)) := rfl

/-- `startsWithL` with an empty pattern. -/
theorem startsWithL_nil (s : List Char) : startsWithL s [] = true := by
  cases s with
  | nil => rfl
  | cons c t => rfl

/-- `startsWithL` on two cons cells. -/
theorem startsWithL_cons (a b : Char) (as bs : List Char) :
    startsWithL (a :: as) (b :: bs) = (a == b && startsWithL as bs) := rfl

/-- Any list starts with its own prefix. -/
theorem startsWithL_append (p r : List Char) : startsWithL (p ++ r) p = true := by
  induction p with
  | nil => exact startsWithL_nil r
  | cons a as ih =>
    rw [List.cons_append, startsWithL_cons, beq_self_eq_true, ih]
    rfl

/-- `parseVal` on the `null` literal. -/
theorem parseVal_litNull (g : Nat) (rest : List Char) :
    parseVal (g + 1) (chars "null" ++ rest) = some (JValue.null, rest) := by
  rw [show chars "null" ++ rest = 'n' :: (chars "ull" ++ rest) from rfl,
    parseVal_succ_eq, skipWs_head_false 'n' _ (by decide)]
  dsimp only
  rw [if_pos (show (('n' : Char) == 'n') = true from rfl),
    startsWithL_append (chars "ull") rest, if_pos (rfl : true = true)]
  rfl

/-- `parseVal` on the `true` literal. -/
theorem parseVal_litTrue (g : Nat) (rest : List Char) :
    parseVal (g + 1) (chars "true" ++ rest) = some (JValue.bool true, rest) := by
  rw [show chars "true" ++ rest = 't' :: (chars "rue" ++ rest) from rfl,
    parseVal_succ_eq, skipWs_head_false 't' _ (by decide)]
  dsimp only
  rw [if_neg (by decide : ¬ ((('t' : Char) == 'n') = true)),
    if_pos (show (('t' : Char) == 't') = true from rfl),
    startsWithL_append (chars "rue") rest, if_pos (rfl : true = true)]
  rfl

/-- `parseVal` on the `false` literal. -/
theorem parseVal_litFalse (g : Nat) (rest : List Char) :
    parseVal (g + 1) (chars "false" ++ rest) = some (JValue.bool false, rest) := by
  rw [show chars "false" ++ rest = 'f' :: (chars "alse" ++ rest) from rfl,
    parseVal_succ_eq, skipWs_head_false 'f' _ (by decide)]
  dsimp only
  rw [if_neg (by decide : ¬ ((('f' : Char) == 'n') = true)),
    if_neg (by decide : ¬ ((('f' : Char) == 't') = true)),
    if_pos (show (('f' : Char) == 'f') = true from rfl),
    startsWithL_append (chars "alse") rest, if_pos (rfl : true = true)]
  rfl

/-- `printArrTail` on nil. -/
theorem printArrTail_nil : printArrTail .nil = [] := rfl

/-- `printObjTail` on nil. -/
theorem printObjTail_nil : printObjTail .nil = [] := rfl

/-- Joint fuel-indexed roundtrip invariant: a printed value parses back
to itself, and printed array/object tails parse back inside their
enclosing brackets. -/
theorem roundtrip_fuel : ∀ f : Nat,
    (∀ v rest, wfV v = true → (printV v).length ≤ f → headNotDigit rest = true →
      parseVal f (printV v ++ rest) = some (v, rest)) ∧
    (∀ v tl rest, wfV v = true → wfA tl = true →
      (printV v).length + (printArrTail tl).length + 1 ≤ f →
      parseElems f (printV v ++ (printArrTail tl ++ ']' :: rest)) = some (.cons v tl, rest)) ∧
    (∀ k v tl rest, wfStr k = true → wfV v = true → wfO tl = true →
      (printKV k v).length + (printObjTail tl).length + 1 ≤ f →
      parseFields f (printKV k v ++ (printObjTail tl ++ '\x7d' :: rest))
        = some (.cons k v tl, rest)) := by
  intro f
  induction f with
  | zero =>
    refine ⟨fun v rest _ hlen _ => absurd hlen (by have := printV_length_pos v; omega),
      fun v tl rest _ _ hlen => absurd hlen (by omega),
      fun k v tl rest _ _ _ hlen => absurd hlen (by omega)⟩
  | succ g ih =>
    obtain ⟨ihv, iha, iho⟩ := ih
    refine ⟨?_, ?_, ?_⟩
    · intro v rest hwf hlen hrest
      cases v with
      | null => exact parseVal_litNull g rest
      | bool b => cases b with
        | true => exact parseVal_litTrue g rest
        | false => exact parseVal_litFalse g rest
      | int n =>
        cases n with
        | ofNat m =>
          show parseVal (g + 1) (natDigits m ++ rest) = some (.int (.ofNat m), rest)
          cases hq : natDigits m with
          | nil => exact absurd hq (natDigits_ne_nil m)
          | cons d ds =>
            have hdd : d.isDigit = true := by
              apply natDigits_all_digits m
              rw [hq]
              exact List.mem_cons_self d ds
            rw [List.cons_append, parseVal_succ_eq,
              skipWs_head_false d _ (digit_not_ws d hdd)]
            dsimp only
            rw [isDigit_beq_false d 'n' hdd (by decide),
              isDigit_beq_false d 't' hdd (by decide),
              isDigit_beq_false d 'f' hdd (by decide),
              isDigit_beq_false d '"' hdd (by decide),
              isDigit_beq_false d '[' hdd (by decide),
              isDigit_beq_false d '\x7b' hdd (by decide)]
            simp only [Bool.false_eq_true, if_false]
            rw [← List.cons_append, ← hq,
              show natDigits m = intChars (Int.ofNat m) from rfl,
              parseIntTok_intChars _ rest hrest]
            rfl
        | negSucc m =>
          show parseVal (g + 1) (('-' :: natDigits (m + 1)) ++ rest)
            = some (.int (.negSucc m), rest)
          rw [List.cons_append, parseVal_dash, ← List.cons_append,
            show ('-' :: natDigits (m + 1)) = intChars (Int.negSucc m) from rfl,
            parseIntTok_intChars _ rest hrest]
          rfl
      | str s =>
        show parseVal (g + 1) ((('"' :: escStr s) ++ ['"']) ++ rest) = some (.str s, rest)
        rw [List.append_assoc, List.cons_append, parseVal_quote, List.singleton_append,
          parseStrBody_escStr s rest hwf]
        rfl
      | arr es =>
        cases es with
        | nil =>
          show parseVal (g + 1) ('[' :: (']' :: rest)) = some (JValue.arr .nil, rest)
          rfl
        | cons v tl =>
          have hlen2 : (printV v).length + (printArrTail tl).length + 1 ≤ g := by
            rw [printArr_cons_length] at hlen
            omega
          rw [show wfV (.arr (.cons v tl)) = (wfV v && wfA tl) from rfl,
            Bool.and_eq_true] at hwf
          show parseVal (g + 1) (('[' :: ((printV v ++ printArrTail tl) ++ [']'])) ++ rest)
            = some (.arr (.cons v tl), rest)
          have hy : ((printV v ++ printArrTail tl) ++ [']']) ++ rest
              = printV v ++ (printArrTail tl ++ ']' :: rest) := by
            simp
          rw [List.cons_append, hy, parseVal_lbracket, skipWs_printV v _,
            headIs_printV_rbracket v _]
          simp only [Bool.false_eq_true, if_false]
          rw [iha v tl rest hwf.1 hwf.2 hlen2]
          rfl
      | obj fs =>
        cases fs with
        | nil =>
          show parseVal (g + 1) ('\x7b' :: ('\x7d' :: rest)) = some (JValue.obj .nil, rest)
          rfl
        | cons k v tl =>
          have hlen2 : (printKV k v).length + (printObjTail tl).length + 1 ≤ g := by
            rw [printObj_cons_length] at hlen
            omega
          rw [show wfV (.obj (.cons k v tl))
              = (wfStr k && wfV v && wfO tl && !(hasKey tl k)) from rfl,
            Bool.and_eq_true, Bool.and_eq_true, Bool.and_eq_true] at hwf
          show parseVal (g + 1)
              (('\x7b' :: ((printKV k v ++ printObjTail tl) ++ ['\x7d'])) ++ rest)
            = some (.obj (.cons k v tl), rest)
          have hy : ((printKV k v ++ printObjTail tl) ++ ['\x7d']) ++ rest
              = printKV k v ++ (printObjTail tl ++ '\x7d' :: rest) := by
            simp
          rw [List.cons_append, hy, parseVal_lbrace, skipWs_printKV k v _,
            headIs_printKV_rbrace k v _]
          simp only [Bool.false_eq_true, if_false]
          rw [iho k v tl rest hwf.1.1.1 hwf.1.1.2 hwf.1.2 hlen2]
          rfl
    · intro v tl rest hwv hwtl hlen
      have hv1 : 0 < (printV v).length := printV_length_pos v
      cases tl with
      | nil =>
        rw [printArrTail_nil, List.nil_append, parseElems_succ_eq,
          ihv v (']' :: rest) hwv
            (by have hl0 : (printArrTail JArr.nil).length = 0 := rfl; omega) rfl]
        rfl
      | cons w tl2 =>
        rw [show wfA (.cons w tl2) = (wfV w && wfA tl2) from rfl, Bool.and_eq_true] at hwtl
        have hlen3 : (printArrTail (JArr.cons w tl2)).length
            = (printV w).length + (printArrTail tl2).length + 2 :=
          printArrTail_cons_length w tl2
        rw [printArrTail_cons]
        rw [show (',' :: ' ' :: (printV w ++ printArrTail tl2)) ++ ']' :: rest
            = ',' :: ' ' :: (printV w ++ (printArrTail tl2 ++ ']' :: rest)) by simp]
        rw [parseElems_succ_eq,
          ihv v (',' :: ' ' :: (printV w ++ (printArrTail tl2 ++ ']' :: rest))) hwv
            (by omega) rfl]
        dsimp only
        rw [skipWs_head_false ',' _ (by decide), headIs_cons,
          if_pos (show ((',' : Char) == ',') = true from rfl), List.tail_cons, parseElems_ws,
          iha w tl2 rest hwtl.1 hwtl.2 (by omega)]
        rfl
    · intro k v tl rest hwk hwv hwtl hlen
      have hv1 : 0 < (printV v).length := printV_length_pos v
      have hpk1 : (printV v).length < (printKV k v).length := by
        rw [printKV_eq]
        simp only [List.length_cons, List.length_append]
        omega
      rw [show printKV k v ++ (printObjTail tl ++ '\x7d' :: rest)
          = '"' :: (escStr k ++ ('"' :: ':' :: ' ' ::
              (printV v ++ (printObjTail tl ++ '\x7d' :: rest)))) by
        rw [printKV_eq]; simp]
      rw [parseFields_succ_eq]
      dsimp only
      rw [skipWs_head_false '"' _ (by decide), headIs_cons,
        if_pos (show (('"' : Char) == '"') = true from rfl), List.tail_cons,
        parseStrBody_escStr k _ hwk]
      dsimp only
      rw [skipWs_head_false ':' _ (by decide), headIs_cons,
        if_pos (show ((':' : Char) == ':') = true from rfl), List.tail_cons,
        parseVal_ws_cons,
        ihv v (printObjTail tl ++ '\x7d' :: rest) hwv (by omega)
          (headNotDigit_objTail tl rest)]
      dsimp only
      cases tl with
      | nil =>
        rw [printObjTail_nil, List.nil_append]
        rfl
      | cons k2 v2 tl2 =>
        rw [show wfO (.cons k2 v2 tl2)
            = (wfStr k2 && wfV v2 && wfO tl2 && !(hasKey tl2 k2)) from rfl,
          Bool.and_eq_true, Bool.and_eq_true, Bool.and_eq_true] at hwtl
        have hlen4 : (printObjTail (JObj.cons k2 v2 tl2)).length
            = (printKV k2 v2).length + (printObjTail tl2).length + 2 :=
          printObjTail_cons_length k2 v2 tl2
        rw [printObjTail_cons]
        rw [show (',' :: ' ' :: (printKV k2 v2 ++ printObjTail tl2)) ++ '\x7d' :: rest
            = ',' :: ' ' :: (printKV k2 v2 ++ (printObjTail tl2 ++ '\x7d' :: rest)) by simp]
        rw [skipWs_head_false ',' _ (by decide), headIs_cons,
          if_pos (show ((',' : Char) == ',') = true from rfl), List.tail_cons, parseFields_ws,
          iho k2 v2 tl2 rest hwtl.1.1.1 hwtl.1.1.2 hwtl.1.2 (by omega)]
        rfl

/-! ### Document roundtrip and fence recovery -/

/-- `json.loads` inverts `json.dumps` on well-formed values. -/
theorem jsonLoads_printV (v : JValue) (h : wfV v = true) : jsonLoads (printV v) = some v := by
  have h1 : parseVal ((printV v).length + 1) (printV v ++ []) = some (v, []) :=
    (roundtrip_fuel ((printV v).length + 1)).1 v [] h (by omega) rfl
  rw [List.append_nil] at h1
  show (match parseVal ((printV v).length + 1) (printV v) with
        | some (w, r) => if (skipWs r).isEmpty then some w else none
        | none => none) = some v
  rw [h1]
  rfl

/-- Unfolding equation of `findOcc` on a cons cell. -/
theorem findOcc_cons (pat : List Char) (c : Char) (t : List Char) :
    findOcc pat (c :: t) =
      (if startsWithL (c :: t) pat then some ([], (c :: t).drop pat.length)
       else (findOcc pat t).map (fun p => (c :: p.1, p.2))) := rfl

/-- A failed containment test means `findOcc` finds nothing. -/
theorem findOcc_of_not_contains (s pat : List Char) (h : containsL s pat = false) :
    findOcc pat s = none := by
  cases hf : findOcc pat s with
  | none => rfl
  | some p =>
    rw [show containsL s pat = (findOcc pat s).isSome from rfl, hf] at h
    exact absurd h (by simp)

/-- Containment unfolded over a cons cell. -/
theorem containsL_cons (c : Char) (t pat : List Char) :
    containsL (c :: t) pat = (startsWithL (c :: t) pat || containsL t pat) := by
  rw [show containsL (c :: t) pat = (findOcc pat (c :: t)).isSome from rfl, findOcc_cons]
  by_cases hsw : startsWithL (c :: t) pat = true
  · rw [if_pos hsw, hsw]
    rfl
  · rw [if_neg hsw]
    simp only [Bool.not_eq_true] at hsw
    rw [hsw, show containsL t pat = (findOcc pat t).isSome from rfl]
    cases findOcc pat t with
    | none => rfl
    | some q => rfl

/-- A list starting with an extended pattern starts with the base
pattern. -/
theorem startsWithL_prefix_mono :
    ∀ (p : List Char) (s q : List Char), startsWithL s (p ++ q) = true →
      startsWithL s p = true := by
  intro p
  induction p with
  | nil => intro s q _; exact startsWithL_nil s
  | cons pp pt ih =>
    intro s q h
    cases s with
    | nil =>
      rw [List.cons_append] at h
      exact absurd h (by simp [startsWithL])
    | cons x s2 =>
      rw [List.cons_append, startsWithL_cons, Bool.and_eq_true] at h
      rw [startsWithL_cons, h.1, ih s2 q h.2]
      rfl

/-- Containing an extended pattern implies containing the base
pattern. -/
theorem containsL_pattern_mono :
    ∀ (s p q : List Char), containsL s (p ++ q) = true → containsL s p = true := by
  intro s
  induction s with
  | nil =>
    intro p q h
    rw [show containsL ([] : List Char) (p ++ q)
        = (if startsWithL [] (p ++ q) then some (([] : List Char), ([] : List Char)) else none).isSome
      from rfl] at h
    by_cases hsw : startsWithL [] (p ++ q) = true
    · have hp := startsWithL_prefix_mono p [] q hsw
      rw [show containsL ([] : List Char) p
          = (if startsWithL [] p then some (([] : List Char), ([] : List Char)) else none).isSome
        from rfl, if_pos hp]
      rfl
    · rw [if_neg hsw] at h
      exact absurd h (by simp)
  | cons c t ih =>
    intro p q h
    rw [containsL_cons, Bool.or_eq_true] at h
    rw [containsL_cons]
    rcases h with h | h
    · rw [startsWithL_prefix_mono p _ q h]
      rfl
    · rw [ih p q h, Bool.or_true]

/-- A newline-free pattern cannot start across a newline boundary. -/
theorem startsWithL_newline_split :
    ∀ (pat a b : List Char), ('\n' ∈ pat → False) →
      startsWithL (a ++ '\n' :: b) pat = true → startsWithL a pat = true := by
  intro pat
  induction pat with
  | nil => intro a b _ _; exact startsWithL_nil a
  | cons p pt ih =>
    intro a b hnl hsw
    cases a with
    | nil =>
      rw [List.nil_append, startsWithL_cons, Bool.and_eq_true] at hsw
      have hp : '\n' = p := eq_of_beq hsw.1
      subst hp
      exact absurd (List.mem_cons_self '\n' pt) hnl
    | cons x a2 =>
      rw [List.cons_append, startsWithL_cons, Bool.and_eq_true] at hsw
      rw [startsWithL_cons, hsw.1, ih a2 b (fun hm => hnl (List.mem_cons_of_mem p hm)) hsw.2]
      rfl

/-- `findOcc` skips a left part with no occurrence, across a newline the
pattern cannot contain. -/
theorem findOcc_append_newline :
    ∀ (pat a b : List Char), pat ≠ [] → ('\n' ∈ pat → False) →
      containsL a pat = false →
      findOcc pat (a ++ '\n' :: b)
        = (findOcc pat b).map (fun p => (a ++ '\n' :: p.1, p.2)) := by
  intro pat a
  induction a with
  | nil =>
    intro b hne hnl _
    rw [List.nil_append]
    cases pat with
    | nil => exact absurd rfl hne
    | cons p pt =>
      have hp : (('\n' : Char) == p) = false := by
        cases hb : ('\n' : Char) == p with
        | false => rfl
        | true =>
          have he : '\n' = p := eq_of_beq hb
          subst he
          exact absurd (List.mem_cons_self '\n' pt) hnl
      have hsw : startsWithL ('\n' :: b) (p :: pt) = false := by
        rw [startsWithL_cons, hp]
        rfl
      rw [findOcc_cons, hsw]
      simp only [Bool.false_eq_true, if_false]
      cases findOcc (p :: pt) b with
      | none => rfl
      | some q => rfl
  | cons x a2 ih =>
    intro b hne hnl hc
    have hcx : startsWithL (x :: a2) pat = false ∧ containsL a2 pat = false := by
      rw [containsL_cons, Bool.or_eq_false_iff] at hc
      exact hc
    rw [List.cons_append, findOcc_cons]
    have hswB : startsWithL (x :: (a2 ++ '\n' :: b)) pat = false := by
      cases hb2 : startsWithL (x :: (a2 ++ '\n' :: b)) pat with
      | false => rfl
      | true =>
        have hb3 : startsWithL ((x :: a2) ++ '\n' :: b) pat = true := by
          rw [List.cons_append]
          exact hb2
        have := startsWithL_newline_split pat (x :: a2) b hnl hb3
        rw [hcx.1] at this
        exact absurd this (by simp)
    rw [hswB]
    simp only [Bool.false_eq_true, if_false]
    rw [ih b hne hnl hcx.2]
    cases findOcc pat b with
    | none => rfl
    | some q => rfl

/-- Containment across a safe newline boundary. -/
theorem containsL_append_newline (pat a b : List Char) (hne : pat ≠ [])
    (hnl : '\n' ∈ pat → False) (hc : containsL a pat = false) :
    containsL (a ++ '\n' :: b) pat = containsL b pat := by
  rw [show containsL (a ++ '\n' :: b) pat = (findOcc pat (a ++ '\n' :: b)).isSome from rfl,
    findOcc_append_newline pat a b hne hnl hc,
    show containsL b pat = (findOcc pat b).isSome from rfl]
  cases findOcc pat b with
  | none => rfl
  | some q => rfl

/-- `splitGo` when the pattern occurs, at successor fuel. -/
theorem splitGo_cons_occ (pat : List Char) (f : Nat) (s pre post : List Char)
    (h : findOcc pat s = some (pre, post)) :
    splitGo pat (f + 1) s = pre :: splitGo pat f post := by
  rw [show splitGo pat (f + 1) s
      = (match findOcc pat s with
         | none => [s]
         | some (pre, post) => pre :: splitGo pat f post) from rfl, h]

/-- `splitGo` when the pattern occurs, at any positive fuel. -/
theorem splitGo_occ_pos (pat : List Char) (f : Nat) (hf : 0 < f) (s pre post : List Char)
    (h : findOcc pat s = some (pre, post)) :
    splitGo pat f s = pre :: splitGo pat (f - 1) post := by
  cases f with
  | zero => exact absurd hf (by omega)
  | succ g =>
    rw [splitGo_cons_occ pat g s pre post h]
    rfl

/-- `splitGo` when the pattern does not occur. -/
theorem splitGo_no_occ (pat : List Char) (f : Nat) (s : List Char)
    (h : findOcc pat s = none) : splitGo pat f s = [s] := by
  cases f with
  | zero => rfl
  | succ g =>
    rw [show splitGo pat (g + 1) s
        = (match findOcc pat s with
           | none => [s]
           | some (pre, post) => pre :: splitGo pat g post) from rfl, h]

/-- `splitOnL` in terms of its worker. -/
theorem splitOnL_eq (s pat : List Char) : splitOnL s pat = splitGo pat (s.length + 1) s := rfl

/-- Unfolding equation of `fenceExtract`. -/
theorem fenceExtract_eq (text : List Char) :
    fenceExtract text =
      (if containsL text tagJson then
        match (splitOnL text tagJson).get? 1 with
        | none => none
        | some part => (splitOnL part tagFence).get? 0
      else if containsL text tagFence then
        match (splitOnL text tagFence).get? 1 with
        | none => none
        | some part => (splitOnL part tagFence).get? 0
      else some text) := rfl

/-- Stripping a body wrapped in single newlines recovers the body. -/
theorem stripL_wrap (M : List Char) (c0 : Char) (ts : List Char) (cL : Char) (init : List Char)
    (h0 : M = c0 :: ts) (hc0 : pyIsSpace c0 = false)
    (hL : M = init ++ [cL]) (hcL : pyIsSpace cL = false) :
    stripL ('\n' :: (M ++ ['\n'])) = M := by
  show ((('\n' :: (M ++ ['\n'])).dropWhile pyIsSpace).reverse.dropWhile pyIsSpace).reverse = M
  rw [List.dropWhile_cons, if_pos (show pyIsSpace '\n' = true from rfl),
    h0, List.cons_append, List.dropWhile_cons, hc0]
  simp only [Bool.false_eq_true, if_false]
  rw [← List.cons_append, ← h0, List.reverse_append, List.reverse_singleton,
    List.singleton_append, List.dropWhile_cons, if_pos (show pyIsSpace '\n' = true from rfl),
    hL, List.reverse_append, List.reverse_singleton, List.singleton_append,
    List.dropWhile_cons, hcL]
  simp only [Bool.false_eq_true, if_false]
  simp

/-- C4 (amended): for every well-formed serialisable record whose
serialisation contains no triple-backtick substring, the sanitizer
returns the record unchanged on the bare serialisation and on both
fenced forms (with and without the `json` tag).  The no-backtick proviso
is necessary: `json.dumps` emits backticks verbatim, and the fence
recovery then truncates the interior (see the counterexample). -/
theorem C4_sanitizer_serialisation_roundtrip (v : JValue)
    (hwf : wfV v = true) (hno : containsL (printV v) tagFence = false) :
    cleanAndParse (printV v) = some v ∧
    cleanAndParse (tagJson ++ '\n' :: (printV v ++ '\n' :: tagFence)) = some v ∧
    cleanAndParse (tagFence ++ '\n' :: (printV v ++ '\n' :: tagFence)) = some v := by
  have hcv : containsL (printV v) tagJson = false := by
    cases hcc : containsL (printV v) tagJson with
    | false => rfl
    | true =>
      have hmono := containsL_pattern_mono (printV v) tagFence (chars "json")
        (by rw [show tagFence ++ chars "json" = tagJson from rfl]; exact hcc)
      rw [hno] at hmono
      exact absurd hmono (by simp)
  have hmid : containsL (printV v ++ '\n' :: tagFence) tagJson = false := by
    rw [containsL_append_newline tagJson (printV v) tagFence (by decide) (by decide) hcv]
    decide
  have hswnJ : startsWithL ('\n' :: (printV v ++ '\n' :: tagFence)) tagJson = false := by
    rw [show tagJson = '`' :: chars "``json" from rfl, startsWithL_cons,
      show (('\n' : Char) == '`') = false from rfl]
    rfl
  have hrest1c : containsL ('\n' :: (printV v ++ '\n' :: tagFence)) tagJson = false := by
    rw [containsL_cons, hswnJ, hmid]
    rfl
  have hr1 : findOcc tagJson ('\n' :: (printV v ++ '\n' :: tagFence)) = none :=
    findOcc_of_not_contains _ _ hrest1c
  have hsw0 : startsWithL (tagJson ++ ('\n' :: (printV v ++ '\n' :: tagFence))) tagJson = true :=
    startsWithL_append tagJson _
  have hfo0 : findOcc tagJson (tagJson ++ '\n' :: (printV v ++ '\n' :: tagFence))
      = some ([], '\n' :: (printV v ++ '\n' :: tagFence)) := by
    rw [show tagJson ++ '\n' :: (printV v ++ '\n' :: tagFence)
        = '`' :: (chars "``json" ++ '\n' :: (printV v ++ '\n' :: tagFence)) from rfl,
      findOcc_cons,
      if_pos (show startsWithL
        ('`' :: (chars "``json" ++ '\n' :: (printV v ++ '\n' :: tagFence))) tagJson = true
        from hsw0)]
    rfl
  have hfo2 : findOcc tagFence ('\n' :: (printV v ++ '\n' :: tagFence))
      = some ('\n' :: (printV v ++ ['\n']), []) := by
    have hcons : containsL ('\n' :: printV v) tagFence = false := by
      rw [containsL_cons,
        show startsWithL ('\n' :: printV v) tagFence
          = (('\n' == '`') && startsWithL (printV v) (chars "``")) from rfl,
        show (('\n' : Char) == '`') = false from rfl, hno]
      rfl
    have heq : ('\n' : Char) :: (printV v ++ '\n' :: tagFence)
        = ('\n' :: printV v) ++ '\n' :: tagFence := rfl
    rw [heq,
      findOcc_append_newline tagFence ('\n' :: printV v) tagFence (by decide) (by decide) hcons,
      show findOcc tagFence tagFence = some ([], []) from rfl]
    rfl
  have hJ2 : jsonLoads (tagJson ++ '\n' :: (printV v ++ '\n' :: tagFence)) = none := rfl
  have hJ3 : jsonLoads (tagFence ++ '\n' :: (printV v ++ '\n' :: tagFence)) = none := rfl
  have hstrip : stripL ('\n' :: (printV v ++ ['\n'])) = printV v := by
    obtain ⟨c0, ts, h0, _, hc0, _, _⟩ := printV_head_good v
    obtain ⟨init, cL, hLi, hcL⟩ := printV_snoc v
    exact stripL_wrap (printV v) c0 ts cL init h0 hc0 hLi hcL
  have hpre0 : containsL ('\n' :: (printV v ++ ['\n'])) tagFence = false := by
    have hx : containsL (printV v ++ '\n' :: ([] : List Char)) tagFence
        = containsL ([] : List Char) tagFence :=
      containsL_append_newline tagFence (printV v) [] (by decide) (by decide) hno
    rw [containsL_cons,
      show startsWithL ('\n' :: (printV v ++ ['\n'])) tagFence
        = (('\n' == '`') && startsWithL (printV v ++ ['\n']) (chars "``")) from rfl,
      show (('\n' : Char) == '`') = false from rfl]
    simp only [Bool.false_and, Bool.false_or]
    rw [hx]
    decide
  refine ⟨?_, ?_, ?_⟩
  · rw [cleanAndParse_eq, jsonLoads_printV v hwf]
  · have hcU : containsL (tagJson ++ '\n' :: (printV v ++ '\n' :: tagFence)) tagJson = true := by
      rw [show containsL (tagJson ++ '\n' :: (printV v ++ '\n' :: tagFence)) tagJson
          = (findOcc tagJson (tagJson ++ '\n' :: (printV v ++ '\n' :: tagFence))).isSome from rfl,
        hfo0]
      rfl
    have hsplit1 : splitOnL (tagJson ++ '\n' :: (printV v ++ '\n' :: tagFence)) tagJson
        = [[], '\n' :: (printV v ++ '\n' :: tagFence)] := by
      rw [splitOnL_eq, splitGo_cons_occ tagJson _ _ _ _ hfo0, splitGo_no_occ tagJson _ _ hr1]
    have hsplit2 : splitOnL ('\n' :: (printV v ++ '\n' :: tagFence)) tagFence
        = ['\n' :: (printV v ++ ['\n']), []] := by
      rw [splitOnL_eq, splitGo_cons_occ tagFence _ _ _ _ hfo2,
        splitGo_no_occ tagFence _ _ (show findOcc tagFence [] = none from rfl)]
    rw [cleanAndParse_eq, hJ2]
    dsimp only
    rw [fenceExtract_eq, hcU, if_pos rfl, hsplit1,
      show ([[], '\n' :: (printV v ++ '\n' :: tagFence)] : List (List Char)).get? 1
        = some ('\n' :: (printV v ++ '\n' :: tagFence)) from rfl]
    dsimp only
    rw [hsplit2,
      show (['\n' :: (printV v ++ ['\n']), ([] : List Char)] : List (List Char)).get? 0
        = some ('\n' :: (printV v ++ ['\n'])) from rfl]
    dsimp only
    rw [hstrip, jsonLoads_printV v hwf]
  · have hcT2J : containsL (tagFence ++ '\n' :: (printV v ++ '\n' :: tagFence)) tagJson = false := by
      rw [containsL_append_newline tagJson tagFence _ (by decide) (by decide) (by decide)]
      exact hmid
    have hswT2 : startsWithL (tagFence ++ ('\n' :: (printV v ++ '\n' :: tagFence))) tagFence = true :=
      startsWithL_append tagFence _
    have hfoT2 : findOcc tagFence (tagFence ++ '\n' :: (printV v ++ '\n' :: tagFence))
        = some ([], '\n' :: (printV v ++ '\n' :: tagFence)) := by
      rw [show tagFence ++ '\n' :: (printV v ++ '\n' :: tagFence)
          = '`' :: (chars "``" ++ '\n' :: (printV v ++ '\n' :: tagFence)) from rfl,
        findOcc_cons,
        if_pos (show startsWithL
          ('`' :: (chars "``" ++ '\n' :: (printV v ++ '\n' :: tagFence))) tagFence = true
          from hswT2)]
      rfl
    have hcT2F : containsL (tagFence ++ '\n' :: (printV v ++ '\n' :: tagFence)) tagFence = true := by
      rw [show containsL (tagFence ++ '\n' :: (printV v ++ '\n' :: tagFence)) tagFence
          = (findOcc tagFence (tagFence ++ '\n' :: (printV v ++ '\n' :: tagFence))).isSome from rfl,
        hfoT2]
      rfl
    have hlenT2 : 0 < (tagFence ++ '\n' :: (printV v ++ '\n' :: tagFence)).length := by
      simp
    have hsplitA : splitOnL (tagFence ++ '\n' :: (printV v ++ '\n' :: tagFence)) tagFence
        = [] :: splitGo tagFence (tagFence ++ '\n' :: (printV v ++ '\n' :: tagFence)).length
            ('\n' :: (printV v ++ '\n' :: tagFence)) := by
      rw [splitOnL_eq, splitGo_cons_occ tagFence _ _ _ _ hfoT2]
    have hsplitB : splitGo tagFence (tagFence ++ '\n' :: (printV v ++ '\n' :: tagFence)).length
          ('\n' :: (printV v ++ '\n' :: tagFence))
        = ('\n' :: (printV v ++ ['\n'])) :: splitGo tagFence
            ((tagFence ++ '\n' :: (printV v ++ '\n' :: tagFence)).length - 1) [] :=
      splitGo_occ_pos tagFence _ hlenT2 _ _ _ hfo2
    rw [cleanAndParse_eq, hJ3]
    dsimp only
    rw [fenceExtract_eq, hcT2J]
    simp only [Bool.false_eq_true, if_false]
    rw [hcT2F, if_pos rfl, hsplitA, hsplitB,
      show (([] : List Char) :: (('\n' :: (printV v ++ ['\n'])) :: splitGo tagFence
            ((tagFence ++ '\n' :: (printV v ++ '\n' :: tagFence)).length - 1) [])).get? 1
        = some ('\n' :: (printV v ++ ['\n'])) from rfl]
    dsimp only
    rw [splitOnL_eq, splitGo_no_occ tagFence _ _ (findOcc_of_not_contains _ _ hpre0),
      show ([('\n' :: (printV v ++ ['\n']))] : List (List Char)).get? 0
        = some ('\n' :: (printV v ++ ['\n'])) from rfl]
    dsimp only
    rw [hstrip, jsonLoads_printV v hwf]

/-- C4 witness: the roundtrip holds at the concrete record `{"a": 1}`,
bare and in both fenced forms. -/
theorem C4_sanitizer_serialisation_roundtrip_witness :
    wfV (JValue.obj (.cons (chars "a") (.int 1) .nil)) = true ∧
    containsL (printV (JValue.obj (.cons (chars "a") (.int 1) .nil))) tagFence = false ∧
    (cleanAndParse (printV (JValue.obj (.cons (chars "a") (.int 1) .nil)))
        = some (JValue.obj (.cons (chars "a") (.int 1) .nil)) ∧
      cleanAndParse (tagJson ++ '\n' ::
          (printV (JValue.obj (.cons (chars "a") (.int 1) .nil)) ++ '\n' :: tagFence))
        = some (JValue.obj (.cons (chars "a") (.int 1) .nil)) ∧
      cleanAndParse (tagFence ++ '\n' ::
          (printV (JValue.obj (.cons (chars "a") (.int 1) .nil)) ++ '\n' :: tagFence))
        = some (JValue.obj (.cons (chars "a") (.int 1) .nil))) :=
  ⟨rfl, rfl, C4_sanitizer_serialisation_roundtrip _ rfl rfl⟩

/-- C4 counterexample: the record `{"a": "```"}` is serialisable and its
bare serialisation parses back, but its `json`-tagged fenced form makes
the sanitizer return `None` — fencing is not a semantic no-op in
general, because the recovery split truncates at the backticks inside
the payload. -/
theorem C4_counterexample_backtick_payload :
    cleanAndParse (printV (JValue.obj (.cons (chars "a") (.str (chars "```")) .nil)))
      = some (JValue.obj (.cons (chars "a") (.str (chars "```")) .nil)) ∧
    cleanAndParse (tagJson ++ '\n' ::
        (printV (JValue.obj (.cons (chars "a") (.str (chars "```")) .nil)) ++ '\n' :: tagFence))
      = none :=
  ⟨rfl, rfl⟩
